import Mathlib

/-!
Verification of the NEAT implementation (genome, innovation registry,
speciation, reproduction, network evaluators) against its specification.

The Rust source is shallowly embedded: `f32` values are modelled as `ℚ`
(exact arithmetic), `HashMap`/`HashSet` as association lists / lists with
first-match lookup, and every use of the random generator is threaded
explicitly through an oracle structure so that theorems quantify over all
possible random outcomes.
-/

namespace Neat

/-! ## Activation catalog (src/context.rs) -/

/-- The scalar nonlinearities referenced by node genes. -/
inductive ActivationFunction
  | Identity
  | Sigmoid
  | Tanh
  | Relu
  | LeakyRelu
deriving DecidableEq, Repr

/-- Interpretations of the two transcendental activations (`exp`-based
sigmoid and tanh are not rational functions, so the embedding takes their
meaning as a parameter; theorems that depend on concrete values add the
corresponding hypotheses such as `sig 0 = 1/2`). -/
structure Transcendental where
  sig : ℚ → ℚ
  th : ℚ → ℚ

/-- `ActivationFunction::activate`: `Identity => x`, `Sigmoid => 1/(1+exp(-x))`,
`Tanh => x.tanh()`, `Relu => x.max(0.0)`, `LeakyRelu => x.max(0.01 * x)`. -/
def ActivationFunction.eval (tr : Transcendental) : ActivationFunction → ℚ → ℚ
  | .Identity, x => x
  | .Sigmoid, x => tr.sig x
  | .Tanh, x => tr.th x
  | .Relu, x => max x 0
  | .LeakyRelu, x => max x (1/100 * x)

/-! ## Genes (src/genome/genes.rs) -/

/-- `ConnectionGene`: source, target, weight, enabled flag, innovation id. -/
structure ConnectionGene where
  weight : ℚ
  enabled : Bool
  in_node : ℕ
  out_node : ℕ
  innovation : ℕ
deriving DecidableEq, Repr

/-- `ConnectionGene::new(connection, weight, innovation)` — enabled by default. -/
def ConnectionGene.new (connection : ℕ × ℕ) (weight : ℚ) (innovation : ℕ) : ConnectionGene :=
  { weight := weight
    enabled := true
    in_node := connection.1
    out_node := connection.2
    innovation := innovation }

/-- `NodeGene`: id, activation, and the continuous-time parameters read by
the CTRNN evaluator (`node.bias`, `node.time_constant`). -/
structure NodeGene where
  id : ℕ
  activation : ActivationFunction
  bias : ℚ
  time_constant : ℚ
deriving DecidableEq, Repr

/-- `NodeGene::new(id, activation)`.  The continuous-time fields default to
bias `0.0` and time constant `1.0` (the spec: "positive time-constant
scalar, default 1.0"). -/
def NodeGene.new (id : ℕ) (activation : ActivationFunction) : NodeGene :=
  { id := id, activation := activation, bias := 0, time_constant := 1 }

/-! ## Innovation registry (src/state.rs, `InnovationRecord`) -/

/-- First-match lookup in an association list keyed by `(in_node, out_node)`
pairs — the model of `HashMap<(usize, usize), usize>::get`. -/
def lookupPair : List ((ℕ × ℕ) × ℕ) → ℕ × ℕ → Option ℕ
  | [], _ => none
  | (k, v) :: rest, key => if k = key then some v else lookupPair rest key

/-- First-match lookup in an association list keyed by a connection id —
the model of `HashMap<usize, (usize, usize, usize)>::get`. -/
def lookupSplit : List (ℕ × (ℕ × ℕ × ℕ)) → ℕ → Option (ℕ × ℕ × ℕ)
  | [], _ => none
  | (k, v) :: rest, key => if k = key then some v else lookupSplit rest key

/-- `InnovationRecord`: node / connection counters, the memo of connection
innovations and the memo of node splits. -/
structure InnovationRecord where
  node_innovation_counter : ℕ
  connection_innovation_counter : ℕ
  connection_innovations : List ((ℕ × ℕ) × ℕ)
  node_splits : List (ℕ × (ℕ × ℕ × ℕ))
deriving DecidableEq, Repr

/-- `InnovationRecord::new()`. -/
def InnovationRecord.new : InnovationRecord :=
  { node_innovation_counter := 0
    connection_innovation_counter := 0
    connection_innovations := []
    node_splits := [] }

/-- `record_node_innovation`: return the node counter, then increment it. -/
def record_node_innovation (r : InnovationRecord) : ℕ × InnovationRecord :=
  (r.node_innovation_counter,
    { r with node_innovation_counter := r.node_innovation_counter + 1 })

/-- `record_connection_innovation(in_node, out_node)`: existing id if the
pair was ever recorded, else allocate the connection counter and store. -/
def record_connection_innovation (r : InnovationRecord) (in_node out_node : ℕ) :
    ℕ × InnovationRecord :=
  match lookupPair r.connection_innovations (in_node, out_node) with
  | some v => (v, r)
  | none =>
      let innovation := r.connection_innovation_counter
      (innovation,
        { r with
          connection_innovation_counter := innovation + 1
          connection_innovations :=
            ((in_node, out_node), innovation) :: r.connection_innovations })

/-- `record_node_split(connection_id, in_node, out_node)`: memoized triple
if the split was recorded before, else allocate one node id and two
connection innovations and memoize. -/
def record_node_split (r : InnovationRecord) (connection_id in_node out_node : ℕ) :
    (ℕ × ℕ × ℕ) × InnovationRecord :=
  match lookupSplit r.node_splits connection_id with
  | some t => (t, r)
  | none =>
      let new_node_id := r.node_innovation_counter
      let r1 := { r with node_innovation_counter := new_node_id + 1 }
      let p2 := record_connection_innovation r1 in_node new_node_id
      let p3 := record_connection_innovation p2.2 new_node_id out_node
      ((new_node_id, p2.1, p3.1),
        { p3.2 with
          node_splits := (connection_id, (new_node_id, p2.1, p3.1)) :: p3.2.node_splits })

/-- One registry operation (the three public entry points). -/
inductive RegistryOp
  | node : RegistryOp
  | conn : ℕ → ℕ → RegistryOp
  | split : ℕ → ℕ → ℕ → RegistryOp

/-- Apply one registry operation to the record (discarding the returned value). -/
def RegistryOp.apply : RegistryOp → InnovationRecord → InnovationRecord
  | .node, r => (record_node_innovation r).2
  | .conn a b, r => (record_connection_innovation r a b).2
  | .split c a b, r => (record_node_split r c a b).2

/-- Run a sequence of registry operations. -/
def runOps : List RegistryOp → InnovationRecord → InnovationRecord
  | [], r => r
  | op :: rest, r => runOps rest (op.apply r)

/-- Prepending an entry with a different key preserves a lookup result. -/
lemma lookupPair_cons_ne (l : List ((ℕ × ℕ) × ℕ)) (k key : ℕ × ℕ) (v : ℕ)
    (h : k ≠ key) : lookupPair ((k, v) :: l) key = lookupPair l key := by
  simp [lookupPair, h]

/-- A recorded connection innovation survives `record_connection_innovation`. -/
lemma connLookup_record_conn (r : InnovationRecord) (a b : ℕ) (k : ℕ × ℕ) (v : ℕ)
    (h : lookupPair r.connection_innovations k = some v) :
    lookupPair (record_connection_innovation r a b).2.connection_innovations k = some v := by
  unfold record_connection_innovation
  cases hl : lookupPair r.connection_innovations (a, b) with
  | some w => simpa [hl] using h
  | none =>
      simp only [hl]
      by_cases hk : (a, b) = k
      · rw [← hk] at h; rw [hl] at h; exact absurd h (by simp)
      · simpa [lookupPair_cons_ne _ _ _ _ hk] using h

/-- A recorded connection innovation survives any registry operation. -/
lemma connLookup_apply (op : RegistryOp) (r : InnovationRecord) (k : ℕ × ℕ) (v : ℕ)
    (h : lookupPair r.connection_innovations k = some v) :
    lookupPair (op.apply r).connection_innovations k = some v := by
  cases op with
  | node => simpa [RegistryOp.apply, record_node_innovation] using h
  | conn a b => exact connLookup_record_conn r a b k v h
  | split c a b =>
      simp only [RegistryOp.apply]
      unfold record_node_split
      cases hl : lookupSplit r.node_splits c with
      | some t => simpa [hl] using h
      | none =>
          simp only [hl]
          exact connLookup_record_conn _ _ _ k v (connLookup_record_conn _ _ _ k v h)

/-- A recorded connection innovation survives any operation sequence. -/
lemma connLookup_runOps (ops : List RegistryOp) (r : InnovationRecord) (k : ℕ × ℕ) (v : ℕ)
    (h : lookupPair r.connection_innovations k = some v) :
    lookupPair (runOps ops r).connection_innovations k = some v := by
  induction ops generalizing r with
  | nil => exact h
  | cons op rest ih => exact ih _ (connLookup_apply op r k v h)

/-- A recorded node split survives `record_connection_innovation`. -/
lemma splitLookup_record_conn (r : InnovationRecord) (a b : ℕ) (c : ℕ) (t : ℕ × ℕ × ℕ)
    (h : lookupSplit r.node_splits c = some t) :
    lookupSplit (record_connection_innovation r a b).2.node_splits c = some t := by
  unfold record_connection_innovation
  cases hl : lookupPair r.connection_innovations (a, b) with
  | some w => simpa [hl] using h
  | none => simpa [hl] using h

/-- A recorded node split survives any registry operation. -/
lemma splitLookup_apply (op : RegistryOp) (r : InnovationRecord) (c : ℕ) (t : ℕ × ℕ × ℕ)
    (h : lookupSplit r.node_splits c = some t) :
    lookupSplit (op.apply r).node_splits c = some t := by
  cases op with
  | node => simpa [RegistryOp.apply, record_node_innovation] using h
  | conn a b => exact splitLookup_record_conn r a b c t h
  | split c2 a b =>
      simp only [RegistryOp.apply]
      unfold record_node_split
      cases hl : lookupSplit r.node_splits c2 with
      | some t2 => simpa [hl] using h
      | none =>
          simp only [hl]
          by_cases hc : c2 = c
          · rw [hc] at hl; rw [hl] at h; exact absurd h (by simp)
          · have e1 : lookupSplit ({ r with
                node_innovation_counter := r.node_innovation_counter + 1 } :
                  InnovationRecord).node_splits c = some t := h
            have e2 := splitLookup_record_conn _ a r.node_innovation_counter c t e1
            have e3 := splitLookup_record_conn _ r.node_innovation_counter b c t e2
            simp only [lookupSplit, if_neg hc]
            exact e3

/-- A recorded node split survives any operation sequence. -/
lemma splitLookup_runOps (ops : List RegistryOp) (r : InnovationRecord) (c : ℕ) (t : ℕ × ℕ × ℕ)
    (h : lookupSplit r.node_splits c = some t) :
    lookupSplit (runOps ops r).node_splits c = some t := by
  induction ops generalizing r with
  | nil => exact h
  | cons op rest ih => exact ih _ (splitLookup_apply op r c t h)

/-- `record_connection_innovation` records its own result. -/
lemma connLookup_after_record (r : InnovationRecord) (a b : ℕ) :
    lookupPair (record_connection_innovation r a b).2.connection_innovations (a, b)
      = some (record_connection_innovation r a b).1 := by
  unfold record_connection_innovation
  cases hl : lookupPair r.connection_innovations (a, b) with
  | some v => simpa using hl
  | none => simp [lookupPair]

/-- `record_node_split` records its own result. -/
lemma splitLookup_after_record (r : InnovationRecord) (c a b : ℕ) :
    lookupSplit (record_node_split r c a b).2.node_splits c
      = some (record_node_split r c a b).1 := by
  unfold record_node_split
  cases hl : lookupSplit r.node_splits c with
  | some t => simpa using hl
  | none => simp [lookupSplit]

/-- A memoized connection lookup determines the result of
`record_connection_innovation` (and the state is unchanged). -/
lemma record_conn_of_lookup (r : InnovationRecord) (a b v : ℕ)
    (h : lookupPair r.connection_innovations (a, b) = some v) :
    record_connection_innovation r a b = (v, r) := by
  unfold record_connection_innovation
  rw [h]

/-- A memoized split lookup determines the result of `record_node_split`. -/
lemma record_split_of_lookup (r : InnovationRecord) (c a b : ℕ) (t : ℕ × ℕ × ℕ)
    (h : lookupSplit r.node_splits c = some t) :
    record_node_split r c a b = (t, r) := by
  unfold record_node_split
  rw [h]

/-- The node counter never decreases under one operation. -/
lemma node_counter_mono_apply (op : RegistryOp) (r : InnovationRecord) :
    r.node_innovation_counter ≤ (op.apply r).node_innovation_counter := by
  cases op with
  | node => simp [RegistryOp.apply, record_node_innovation]
  | conn a b =>
      simp only [RegistryOp.apply]
      unfold record_connection_innovation
      cases hl : lookupPair r.connection_innovations (a, b) <;> simp [hl]
  | split c a b =>
      simp only [RegistryOp.apply]
      unfold record_node_split
      cases hl : lookupSplit r.node_splits c with
      | some t => simp [hl]
      | none =>
          simp only [hl]
          unfold record_connection_innovation
          cases h2 : lookupPair ({ r with
              node_innovation_counter := r.node_innovation_counter + 1 } :
                InnovationRecord).connection_innovations (a, r.node_innovation_counter) <;>
            cases h3 : lookupPair _ (r.node_innovation_counter, b) <;>
              simp_all <;> omega

/-- The connection counter never decreases under one operation. -/
lemma conn_counter_mono_apply (op : RegistryOp) (r : InnovationRecord) :
    r.connection_innovation_counter ≤ (op.apply r).connection_innovation_counter := by
  cases op with
  | node => simp [RegistryOp.apply, record_node_innovation]
  | conn a b =>
      simp only [RegistryOp.apply]
      unfold record_connection_innovation
      cases hl : lookupPair r.connection_innovations (a, b) <;> simp [hl]
  | split c a b =>
      simp only [RegistryOp.apply]
      unfold record_node_split
      cases hl : lookupSplit r.node_splits c with
      | some t => simp [hl]
      | none =>
          simp only [hl]
          unfold record_connection_innovation
          cases h2 : lookupPair ({ r with
              node_innovation_counter := r.node_innovation_counter + 1 } :
                InnovationRecord).connection_innovations (a, r.node_innovation_counter) <;>
            cases h3 : lookupPair _ (r.node_innovation_counter, b) <;>
              simp_all <;> omega

/-- Counters never decrease along any operation sequence. -/
lemma counters_mono_runOps (ops : List RegistryOp) (r : InnovationRecord) :
    r.node_innovation_counter ≤ (runOps ops r).node_innovation_counter ∧
    r.connection_innovation_counter ≤ (runOps ops r).connection_innovation_counter := by
  induction ops generalizing r with
  | nil => exact ⟨le_refl _, le_refl _⟩
  | cons op rest ih =>
      refine ⟨le_trans (node_counter_mono_apply op r) (ih (op.apply r)).1,
        le_trans (conn_counter_mono_apply op r) (ih (op.apply r)).2⟩

/-- C8: the registry is memoizing — `record_connection_innovation(a, b)`
returns the same id on every later call with the same pair, whatever other
registry operations happen in between; `record_node_split` returns the
identical triple on every repeated call with the same connection id; and
both counters never decrease. -/
theorem C8_registry_memoizing :
    (∀ (r : InnovationRecord) (a b : ℕ) (ops : List RegistryOp),
      (record_connection_innovation
          (runOps ops (record_connection_innovation r a b).2) a b).1
        = (record_connection_innovation r a b).1) ∧
    (∀ (r : InnovationRecord) (c a b a2 b2 : ℕ) (ops : List RegistryOp),
      (record_node_split (runOps ops (record_node_split r c a b).2) c a2 b2).1
        = (record_node_split r c a b).1) ∧
    (∀ (r : InnovationRecord) (ops : List RegistryOp),
      r.node_innovation_counter ≤ (runOps ops r).node_innovation_counter ∧
      r.connection_innovation_counter ≤ (runOps ops r).connection_innovation_counter) := by
  refine ⟨?_, ?_, fun r ops => counters_mono_runOps ops r⟩
  · intro r a b ops
    have h := connLookup_runOps ops _ (a, b) _ (connLookup_after_record r a b)
    rw [record_conn_of_lookup _ a b _ h]
  · intro r c a b a2 b2 ops
    have h := splitLookup_runOps ops _ c _ (splitLookup_after_record r c a b)
    rw [record_split_of_lookup _ c a2 b2 _ h]

/-! ## Configuration (src/context.rs `NeatConfig`; the `population.rs`
revision additionally carries the current `compatibility_threshold`) -/

/-- `NetworkType`: feedforward or continuous-time recurrent. -/
inductive NetworkType
  | Feedforward
  | CTRNN
deriving DecidableEq, Repr

/-- The recognized configuration options (union of the fields of
`context.rs::NeatConfig` and `population.rs::NeatConfig`). -/
structure NeatConfig where
  network_type : NetworkType
  bias_mutation_prob : ℚ
  time_constant_mutation_prob : ℚ
  param_perturb_prob : ℚ
  population_size : ℕ
  compatibility_threshold : ℚ
  compatibility_disjoint_coefficient : ℚ
  compatibility_weight_coefficient : ℚ
  weight_mutation_prob : ℚ
  weight_perturb_prob : ℚ
  new_connection_prob : ℚ
  new_node_prob : ℚ
  toggle_enable_prob : ℚ
  crossover_rate : ℚ
  survival_threshold : ℚ
  species_elitism : Bool
  elitism : ℕ
  stagnation_limit : ℕ
  target_species_count : ℕ
  default_activation_function : ActivationFunction
  complexity_penalty_coefficient : ℚ
  connections_penalty_coefficient : ℚ
  target_complexity : ℕ
  complexity_threshold : ℕ
deriving DecidableEq, Repr

/-! ## Genome (src/genome/genome.rs) -/

/-- `Genome`: node map, connection map (keyed by innovation id — every
stored gene carries its key in its `innovation` field), the `(source,
target)` set, input / bias / output ids, and the two fitness scalars.
The `HashMap`s are modelled as lists with first-match lookup. -/
structure Genome where
  nodes : List NodeGene
  connections : List ConnectionGene
  connection_set : List (ℕ × ℕ)
  input_nodes : List ℕ
  bias_node : ℕ
  output_nodes : List ℕ
  fitness : ℚ
  adjusted_fitness : ℚ
deriving DecidableEq, Repr

/-- `genome.connections.get(&innov)`. -/
def connLookup (l : List ConnectionGene) (innov : ℕ) : Option ConnectionGene :=
  l.find? (fun c => c.innovation == innov)

/-- `genome.nodes.get(&id)`. -/
def nodeLookup (l : List NodeGene) (id : ℕ) : Option NodeGene :=
  l.find? (fun n => n.id == id)

/-- `HashMap::insert` on the connection map (overwrite the entry with the
gene's innovation key if present, else add). -/
def insertConnGene (l : List ConnectionGene) (g : ConnectionGene) : List ConnectionGene :=
  if l.any (fun c => c.innovation == g.innovation) then
    l.map (fun c => if c.innovation = g.innovation then g else c)
  else l ++ [g]

/-- `HashMap::insert` on the node map (keyed by the node's id). -/
def insertNode (l : List NodeGene) (n : NodeGene) : List NodeGene :=
  if l.any (fun m => m.id == n.id) then
    l.map (fun m => if m.id = n.id then n else m)
  else l ++ [n]

/-- `HashSet::insert` on the `(source, target)` set. -/
def setInsert (s : List (ℕ × ℕ)) (p : ℕ × ℕ) : List (ℕ × ℕ) :=
  if p ∈ s then s else s ++ [p]

/-- `Genome::from_existing`: same structure, fitness reset. -/
def Genome.from_existing (g : Genome) : Genome :=
  { g with fitness := 0, adjusted_fitness := 0 }

/-- The innovation keys of a genome's connection map. -/
def connKeys (g : Genome) : List ℕ :=
  g.connections.map (·.innovation)

/-- `connections.keys().max().unwrap_or(0)`. -/
def maxInnov (g : Genome) : ℕ :=
  (connKeys g).foldr max 0

/-- The matching test of `compatibility_distance` (gene present in both). -/
def matchingB (g1 g2 : Genome) (i : ℕ) : Bool :=
  (connLookup g1.connections i).isSome && (connLookup g2.connections i).isSome

/-- The disjoint test of `compatibility_distance` (present in exactly one
genome, innovation id not beyond the other genome's maximum). -/
def disjointB (g1 g2 : Genome) (i : ℕ) : Bool :=
  match connLookup g1.connections i, connLookup g2.connections i with
  | some _, none => decide (i ≤ maxInnov g2)
  | none, some _ => decide (i ≤ maxInnov g1)
  | _, _ => false

/-- The excess test of `compatibility_distance` (present in exactly one
genome, innovation id beyond the other genome's maximum). -/
def excessB (g1 g2 : Genome) (i : ℕ) : Bool :=
  match connLookup g1.connections i, connLookup g2.connections i with
  | some _, none => decide (maxInnov g2 < i)
  | none, some _ => decide (maxInnov g1 < i)
  | _, _ => false

/-- The per-innovation contribution to the matching-weight difference sum. -/
def weightDiff (g1 g2 : Genome) (i : ℕ) : ℚ :=
  match connLookup g1.connections i, connLookup g2.connections i with
  | some a, some b => |a.weight - b.weight|
  | _, _ => 0

/-- `Genome::compatibility_distance` (src/genome/genome.rs lines 335-405):
union the innovation ids of both genomes, count disjoint / excess genes,
average the weight difference over matching genes, normalize by the larger
genome size (treated as 1 below 20), and combine with the two coefficients. -/
def Genome.compatibility_distance (self other : Genome) (config : NeatConfig) : ℚ :=
  if max self.connections.length other.connections.length = 0 then 0
  else
    let max_genome_size := max self.connections.length other.connections.length
    let size_normalization : ℚ := if max_genome_size < 20 then 1 else max_genome_size
    let all_innovations := (connKeys self ++ connKeys other).dedup
    let num_matching := all_innovations.countP (matchingB self other)
    let num_disjoint := all_innovations.countP (disjointB self other)
    let num_excess := all_innovations.countP (excessB self other)
    let weight_diff_sum := (all_innovations.map (weightDiff self other)).sum
    let avg_weight_diff : ℚ :=
      if 0 < num_matching then weight_diff_sum / num_matching else 0
    config.compatibility_disjoint_coefficient * num_disjoint / size_normalization
      + config.compatibility_disjoint_coefficient * num_excess / size_normalization
      + config.compatibility_weight_coefficient * avg_weight_diff

/-- Membership in the key list yields a successful lookup. -/
lemma connLookup_isSome_of_mem {g : Genome} {i : ℕ} (h : i ∈ connKeys g) :
    (connLookup g.connections i).isSome := by
  obtain ⟨c, hc, rfl⟩ := List.mem_map.mp h
  unfold connLookup
  rw [List.find?_isSome]
  exact ⟨c, hc, by simp⟩

/-- C9 helper: zero distance of a genome to itself. -/
lemma compatibility_distance_self (g : Genome) (config : NeatConfig) :
    g.compatibility_distance g config = 0 := by
  unfold Genome.compatibility_distance
  by_cases h0 : max g.connections.length g.connections.length = 0
  · rw [if_pos h0]
  · rw [if_neg h0]
    have hd : ∀ i ∈ (connKeys g ++ connKeys g).dedup, disjointB g g i = false := by
      intro i hi
      have hmem : i ∈ connKeys g := by
        rcases List.mem_append.mp (List.mem_dedup.mp hi) with h | h <;> exact h
      have hs := connLookup_isSome_of_mem (g := g) hmem
      obtain ⟨c, hc⟩ := Option.isSome_iff_exists.mp hs
      simp [disjointB, hc]
    have he : ∀ i ∈ (connKeys g ++ connKeys g).dedup, excessB g g i = false := by
      intro i hi
      have hmem : i ∈ connKeys g := by
        rcases List.mem_append.mp (List.mem_dedup.mp hi) with h | h <;> exact h
      have hs := connLookup_isSome_of_mem (g := g) hmem
      obtain ⟨c, hc⟩ := Option.isSome_iff_exists.mp hs
      simp [excessB, hc]
    have hw : ∀ q ∈ (connKeys g ++ connKeys g).dedup.map (weightDiff g g), q = 0 := by
      intro q hq
      obtain ⟨i, _, rfl⟩ := List.mem_map.mp hq
      unfold weightDiff
      cases hl : connLookup g.connections i with
      | none => simp
      | some c => simp
    have hcd : List.countP (disjointB g g) (connKeys g ++ connKeys g).dedup = 0 :=
      List.countP_eq_zero.mpr (by intro a ha; simp [hd a ha])
    have hce : List.countP (excessB g g) (connKeys g ++ connKeys g).dedup = 0 :=
      List.countP_eq_zero.mpr (by intro a ha; simp [he a ha])
    have hcs : ((connKeys g ++ connKeys g).dedup.map (weightDiff g g)).sum = 0 :=
      List.sum_eq_zero hw
    simp [hcd, hce, hcs]

/-- The disjoint classification is symmetric in the two genomes. -/
lemma disjointB_comm (g1 g2 : Genome) : disjointB g2 g1 = disjointB g1 g2 := by
  funext i
  cases h1 : connLookup g1.connections i <;> cases h2 : connLookup g2.connections i <;>
    simp [disjointB, h1, h2]

/-- The excess classification is symmetric in the two genomes. -/
lemma excessB_comm (g1 g2 : Genome) : excessB g2 g1 = excessB g1 g2 := by
  funext i
  cases h1 : connLookup g1.connections i <;> cases h2 : connLookup g2.connections i <;>
    simp [excessB, h1, h2]

/-- The matching classification is symmetric in the two genomes. -/
lemma matchingB_comm (g1 g2 : Genome) : matchingB g2 g1 = matchingB g1 g2 := by
  funext i
  cases h1 : connLookup g1.connections i <;> cases h2 : connLookup g2.connections i <;>
    simp [matchingB, h1, h2]

/-- The matching-weight difference is symmetric in the two genomes. -/
lemma weightDiff_comm (g1 g2 : Genome) : weightDiff g2 g1 = weightDiff g1 g2 := by
  funext i
  cases h1 : connLookup g1.connections i <;> cases h2 : connLookup g2.connections i <;>
    simp [weightDiff, h1, h2, abs_sub_comm]

/-- C9 helper: the compatibility distance is symmetric. -/
lemma compatibility_distance_comm (g1 g2 : Genome) (config : NeatConfig) :
    g1.compatibility_distance g2 config = g2.compatibility_distance g1 config := by
  unfold Genome.compatibility_distance
  have hmax : max g2.connections.length g1.connections.length
      = max g1.connections.length g2.connections.length := max_comm _ _
  by_cases h0 : max g1.connections.length g2.connections.length = 0
  · rw [if_pos h0, if_pos (by rwa [hmax])]
  · rw [if_neg h0, if_neg (by rw [hmax]; exact h0)]
    have hperm : List.Perm (connKeys g2 ++ connKeys g1).dedup
        (connKeys g1 ++ connKeys g2).dedup :=
      (List.perm_append_comm).dedup
    have hcount : ∀ p : ℕ → Bool,
        List.countP p (connKeys g2 ++ connKeys g1).dedup
          = List.countP p (connKeys g1 ++ connKeys g2).dedup :=
      fun p => hperm.countP_eq p
    have hsum : ∀ f : ℕ → ℚ,
        ((connKeys g2 ++ connKeys g1).dedup.map f).sum
          = ((connKeys g1 ++ connKeys g2).dedup.map f).sum :=
      fun f => (hperm.map f).sum_eq
    simp only [disjointB_comm, excessB_comm, matchingB_comm, weightDiff_comm, hmax,
      hcount, hsum]

/-- C9: the compatibility distance is reflexive-zero (`d(G, G) = 0`) and
symmetric (`d(G₁, G₂) = d(G₂, G₁)`) for every configuration. -/
theorem C9_compatibility_distance_laws (config : NeatConfig) :
    (∀ g : Genome, g.compatibility_distance g config = 0) ∧
    (∀ g1 g2 : Genome,
      g1.compatibility_distance g2 config = g2.compatibility_distance g1 config) :=
  ⟨fun g => compatibility_distance_self g config,
   fun g1 g2 => compatibility_distance_comm g1 g2 config⟩

/-! ## Crossover (src/genome/genome.rs lines 407-482) -/

/-- One step of the connection-inheritance loop of `Genome::crossover`.
State: current child connection map, child `(src, dst)` set, and the index
of the next unused coin of the random stream. -/
def crossoverStep (more_fit less_fit : Genome) (coin : ℕ → Bool)
    (st : List ConnectionGene × List (ℕ × ℕ) × ℕ) (innov : ℕ) :
    List ConnectionGene × List (ℕ × ℕ) × ℕ :=
  match connLookup more_fit.connections innov, connLookup less_fit.connections innov with
  | some gene1, some gene2 =>
      -- matching genes: inherit from a uniformly chosen parent
      let chosen := if coin st.2.2 then gene1 else gene2
      if (chosen.in_node, chosen.out_node) ∈ st.2.1 then (st.1, st.2.1, st.2.2 + 1)
      else (insertConnGene st.1 chosen, setInsert st.2.1 (chosen.in_node, chosen.out_node),
        st.2.2 + 1)
  | some gene, none =>
      if (gene.in_node, gene.out_node) ∈ st.2.1 then st
      else (insertConnGene st.1 gene, setInsert st.2.1 (gene.in_node, gene.out_node), st.2.2)
  | none, some gene =>
      if (gene.in_node, gene.out_node) ∈ st.2.1 then st
      else (insertConnGene st.1 gene, setInsert st.2.1 (gene.in_node, gene.out_node), st.2.2)
  | none, none => st

/-- `Genome::crossover(self, other, rng)`.  The child starts as
`self.from_existing()`; the fitter parent is chosen (coin 0 decides ties);
nodes of both parents are merged; the union of innovation ids is walked in
ascending order inheriting connections as in `crossoverStep`.  `coin k` is
the k-th `rng.random_bool(0.5)` call; the second component is the total
number of coins consumed. -/
def Genome.crossoverFull (self other : Genome) (coin : ℕ → Bool) : Genome × ℕ :=
  let child0 := self.from_existing
  let pk : Genome × Genome × ℕ :=
    if self.fitness > other.fitness then (self, other, 0)
    else if other.fitness > self.fitness then (other, self, 0)
    else if coin 0 then (self, other, 1) else (other, self, 1)
  let more_fit := pk.1
  let less_fit := pk.2.1
  let childNodes :=
    less_fit.nodes.foldl
      (fun acc n => if (nodeLookup acc n.id).isSome then acc else insertNode acc n)
      (more_fit.nodes.foldl (fun acc n => insertNode acc n) child0.nodes)
  let all_innovations :=
    -- `all_innovations.sort()`: a stable ascending sort of the key union
    -- (with duplicates), modelled by insertion sort
    List.insertionSort (· ≤ ·)
      (more_fit.connections.map (·.innovation) ++ less_fit.connections.map (·.innovation))
  let st := all_innovations.foldl (crossoverStep more_fit less_fit coin)
    (child0.connections, child0.connection_set, pk.2.2)
  ({ child0 with
    input_nodes := self.input_nodes
    output_nodes := self.output_nodes
    bias_node := self.bias_node
    nodes := childNodes
    connections := st.1
    connection_set := st.2.1 }, st.2.2)

/-- The child genome of `Genome::crossover`. -/
def Genome.crossover (self other : Genome) (coin : ℕ → Bool) : Genome :=
  (Genome.crossoverFull self other coin).1

/-- A two-node genome holding a single connection `0 → 3` (innovation 5),
with fitness 1: the less fit parent of the C2 counterexample. -/
def g1Cross : Genome :=
  { nodes := [NodeGene.new 0 .Identity, NodeGene.new 3 .Identity]
    connections := [ConnectionGene.mk 2 true 0 3 5]
    connection_set := [(0, 3)]
    input_nodes := [0]
    bias_node := 1
    output_nodes := [3]
    fitness := 1
    adjusted_fitness := 0 }

/-- The same topology without the connection, with fitness 2: the more fit
parent of the C2 counterexample. -/
def g2Cross : Genome :=
  { nodes := [NodeGene.new 0 .Identity, NodeGene.new 3 .Identity]
    connections := []
    connection_set := []
    input_nodes := [0]
    bias_node := 1
    output_nodes := [3]
    fitness := 2
    adjusted_fitness := 0 }

/-- C2: the claim fails on the code.  Innovation 5 is present only in the
less fit parent `g1Cross` (fitness 1 < 2), yet the child of
`g1Cross.crossover(g2Cross)` contains that connection gene: the child is
seeded with a full clone of `self` and the `(None, Some(gene))` match arm
additionally copies genes unique to the less fit parent. -/
theorem C2_crossover_inherits_from_less_fit :
    g1Cross.fitness < g2Cross.fitness ∧
    (connLookup g1Cross.connections 5).isSome = true ∧
    connLookup g2Cross.connections 5 = none ∧
    (connLookup (g1Cross.crossover g2Cross (fun _ => true)).connections 5).isSome = true := by
  refine ⟨by norm_num [g1Cross, g2Cross], by decide, by decide, ?_⟩
  decide

/-! ## Parsimony pressure (src/genome/genome.rs lines 485-517) -/

/-- `Genome::apply_parsimony_pressure`.  `pow15` is the interpretation of
`(n as f32).powf(1.5)` on a natural-number base (a transcendental, taken
as a parameter; the real function satisfies `pow15 1 = 1`). -/
def Genome.apply_parsimony_pressure (g : Genome) (config : NeatConfig)
    (original_fitness : ℚ) (pow15 : ℕ → ℚ) : ℚ :=
  if original_fitness ≤ 0 then original_fitness
  else
    let num_hidden_nodes := g.nodes.length - (g.input_nodes.length + g.output_nodes.length)
    if num_hidden_nodes ≤ config.complexity_threshold then original_fitness
    else
      let excess_nodes := num_hidden_nodes - config.target_complexity
      let connection_penalty :=
        config.connections_penalty_coefficient * g.connections.length
      let node_penalty : ℚ :=
        if 0 < excess_nodes then config.complexity_penalty_coefficient * pow15 excess_nodes
        else 0
      max (original_fitness - node_penalty - connection_penalty) (1 / 100000)

/-- The hidden-node count in the words of the spec for C6: the number of
nodes that are not inputs, not outputs, and not the bias node.  (The code
instead computes `nodes.len() - (inputs.len() + outputs.len())`, which
also counts the bias node.) -/
def specHiddenNodeCount (g : Genome) : ℕ :=
  (g.nodes.map (·.id)).countP
    (fun x => !(decide (x ∈ g.input_nodes)) && !(decide (x ∈ g.output_nodes))
      && !(x == g.bias_node))

/-- Splitting a `countP` along an auxiliary predicate. -/
lemma countP_split (p q : ℕ → Bool) (L : List ℕ) :
    L.countP q = L.countP (fun x => p x && q x) + L.countP (fun x => !p x && q x) := by
  induction L with
  | nil => rfl
  | cons a t ih =>
      by_cases hq : q a = true <;> by_cases hp : p a = true <;>
        simp [List.countP_cons, hq, hp, ih] <;> omega

/-- On a duplicate-free list, counting members of a duplicate-free subset
gives the subset's size. -/
lemma countP_mem_eq_length {l s : List ℕ} (hl : l.Nodup) (hs : s.Nodup)
    (hsub : ∀ x ∈ s, x ∈ l) :
    l.countP (fun x => decide (x ∈ s)) = s.length := by
  rw [List.countP_eq_length_filter]
  refine List.Perm.length_eq ?_
  rw [List.perm_ext_iff_of_nodup (hl.filter _) hs]
  intro a
  simp only [List.mem_filter, decide_eq_true_eq]
  exact ⟨fun h => h.2, fun h => ⟨hsub a h, h⟩⟩

/-- C6 helper: on a well-formed genome (unique node ids; inputs, outputs
and the bias node distinct, duplicate-free, and present among the nodes),
the count `nodes.len() - (inputs.len() + outputs.len())` computed by
`apply_parsimony_pressure` equals the spec's hidden-node count plus one:
the bias node is included by the code. -/
lemma code_hidden_count_eq_spec_succ (g : Genome)
    (hnd : (g.nodes.map (·.id)).Nodup)
    (hinnd : g.input_nodes.Nodup) (houtnd : g.output_nodes.Nodup)
    (hin : ∀ x ∈ g.input_nodes, x ∈ g.nodes.map (·.id))
    (hout : ∀ x ∈ g.output_nodes, x ∈ g.nodes.map (·.id))
    (hio : ∀ x ∈ g.output_nodes, x ∉ g.input_nodes)
    (hbias : g.bias_node ∈ g.nodes.map (·.id))
    (hbin : g.bias_node ∉ g.input_nodes) (hbout : g.bias_node ∉ g.output_nodes) :
    g.nodes.length - (g.input_nodes.length + g.output_nodes.length)
      = specHiddenNodeCount g + 1 := by
  classical
  set l := g.nodes.map (·.id) with hldef
  have hlen : g.nodes.length = l.length := by simp [hldef]
  have h1 : l.length = l.countP (fun x => decide (x ∈ g.input_nodes))
      + l.countP (fun x => !(decide (x ∈ g.input_nodes))) := by
    have := countP_split (fun x => decide (x ∈ g.input_nodes)) (fun _ => true) l
    simpa using this
  have hA : l.countP (fun x => decide (x ∈ g.input_nodes)) = g.input_nodes.length :=
    countP_mem_eq_length hnd hinnd hin
  have h2 : l.countP (fun x => !(decide (x ∈ g.input_nodes)))
      = l.countP (fun x => decide (x ∈ g.output_nodes)
          && !(decide (x ∈ g.input_nodes)))
        + l.countP (fun x => !(decide (x ∈ g.output_nodes))
          && !(decide (x ∈ g.input_nodes))) :=
    countP_split _ _ l
  have hB : l.countP (fun x => decide (x ∈ g.output_nodes)
      && !(decide (x ∈ g.input_nodes))) = g.output_nodes.length := by
    rw [List.countP_congr (q := fun x => decide (x ∈ g.output_nodes)) ?_]
    · exact countP_mem_eq_length hnd houtnd hout
    · intro x _
      constructor
      · intro h; exact (Bool.and_elim_left h)
      · intro h
        have hx : x ∈ g.output_nodes := of_decide_eq_true h
        simp [h, hio x hx]
  have h3 : l.countP (fun x => !(decide (x ∈ g.output_nodes))
      && !(decide (x ∈ g.input_nodes)))
      = l.countP (fun x => (x == g.bias_node)
          && (!(decide (x ∈ g.output_nodes)) && !(decide (x ∈ g.input_nodes))))
        + l.countP (fun x => !(x == g.bias_node)
          && (!(decide (x ∈ g.output_nodes)) && !(decide (x ∈ g.input_nodes)))) :=
    countP_split _ _ l
  have hC : l.countP (fun x => (x == g.bias_node)
      && (!(decide (x ∈ g.output_nodes)) && !(decide (x ∈ g.input_nodes)))) = 1 := by
    rw [List.countP_congr (q := fun x => x == g.bias_node) ?_]
    · have : l.countP (fun x => x == g.bias_node) = l.count g.bias_node := by
        simp [List.count]
      rw [this, List.count_eq_one_of_mem hnd hbias]
    · intro x _
      constructor
      · intro h; exact (Bool.and_elim_left h)
      · intro h
        have hx : x = g.bias_node := by simpa using h
        subst hx
        simp [hbin, hbout]
  have hD : l.countP (fun x => !(x == g.bias_node)
      && (!(decide (x ∈ g.output_nodes)) && !(decide (x ∈ g.input_nodes))))
      = specHiddenNodeCount g := by
    unfold specHiddenNodeCount
    rw [← hldef]
    refine List.countP_congr ?_
    intro x _
    cases hb : (x == g.bias_node) <;>
      cases hi : (decide (x ∈ g.input_nodes)) <;>
        cases ho : (decide (x ∈ g.output_nodes)) <;> simp [hb, hi, ho]
  rw [hlen, h1, hA, h2, hB, h3, hC, hD]
  omega

/-- The concrete genome of the C6 counterexample: one input (id 0), the
bias node (id 1), one output (id 2), one connection. -/
def gPars : Genome :=
  { nodes := [NodeGene.new 0 .Identity, NodeGene.new 1 .Identity,
      NodeGene.new 2 .Sigmoid]
    connections := [ConnectionGene.mk 1 true 0 2 0]
    connection_set := [(0, 2)]
    input_nodes := [0]
    bias_node := 1
    output_nodes := [2]
    fitness := 0
    adjusted_fitness := 0 }

/-- The configuration of the C6 counterexample: threshold 0, target 0,
both penalty coefficients 1. -/
def cfgPars : NeatConfig :=
  { network_type := .Feedforward
    bias_mutation_prob := 0, time_constant_mutation_prob := 0, param_perturb_prob := 0
    population_size := 1
    compatibility_threshold := 3
    compatibility_disjoint_coefficient := 1, compatibility_weight_coefficient := 0
    weight_mutation_prob := 0, weight_perturb_prob := 0
    new_connection_prob := 0, new_node_prob := 0, toggle_enable_prob := 0
    crossover_rate := 0, survival_threshold := 0
    species_elitism := true, elitism := 0, stagnation_limit := 1, target_species_count := 1
    default_activation_function := .Sigmoid
    complexity_penalty_coefficient := 1, connections_penalty_coefficient := 1
    target_complexity := 0, complexity_threshold := 0 }

/-- C6: the claim fails on the code.  `gPars` has zero hidden nodes in the
spec's sense (not input, not output, not bias), and the spec's `h ≤
complexity_threshold` clause promises the fitness 10 is returned
unchanged; the code counts the bias node as hidden (`3 - (1 + 1) = 1 >
0`) and penalizes: with both coefficients 1 and `1^1.5 = 1` it returns
`10 - 1 - 1 = 8`. -/
theorem C6_parsimony_penalizes_spec_hidden_zero :
    specHiddenNodeCount gPars = 0 ∧
    gPars.apply_parsimony_pressure cfgPars 10 (fun _ => 1) = 8 := by
  constructor
  · decide
  · unfold Genome.apply_parsimony_pressure
    norm_num [gPars, cfgPars]

/-- C6 (amended): with `h` the number of nodes that are neither inputs nor
outputs — a count that includes the bias node, hence equals the spec's
hidden-node count plus one on well-formed genomes — the penalty leaves a
raw fitness ≤ 0 unchanged, leaves it unchanged when `h ≤
complexity_threshold`, and otherwise subtracts
`c_node * (h - target)^1.5` (0 when the saturating difference is 0) plus
`c_conn * |connections|`, flooring at `0.00001`. -/
theorem C6_parsimony_amended (g : Genome) (config : NeatConfig)
    (f : ℚ) (pow15 : ℕ → ℚ)
    (hnd : (g.nodes.map (·.id)).Nodup)
    (hinnd : g.input_nodes.Nodup) (houtnd : g.output_nodes.Nodup)
    (hin : ∀ x ∈ g.input_nodes, x ∈ g.nodes.map (·.id))
    (hout : ∀ x ∈ g.output_nodes, x ∈ g.nodes.map (·.id))
    (hio : ∀ x ∈ g.output_nodes, x ∉ g.input_nodes)
    (hbias : g.bias_node ∈ g.nodes.map (·.id))
    (hbin : g.bias_node ∉ g.input_nodes) (hbout : g.bias_node ∉ g.output_nodes) :
    (f ≤ 0 → g.apply_parsimony_pressure config f pow15 = f) ∧
    (specHiddenNodeCount g + 1 ≤ config.complexity_threshold →
      g.apply_parsimony_pressure config f pow15 = f) ∧
    (0 < f → config.complexity_threshold < specHiddenNodeCount g + 1 →
      g.apply_parsimony_pressure config f pow15 =
        max (f
          - (if 0 < specHiddenNodeCount g + 1 - config.target_complexity then
              config.complexity_penalty_coefficient
                * pow15 (specHiddenNodeCount g + 1 - config.target_complexity)
            else 0)
          - config.connections_penalty_coefficient * g.connections.length)
          (1 / 100000)) := by
  have hcount := code_hidden_count_eq_spec_succ g hnd hinnd houtnd hin hout hio
    hbias hbin hbout
  unfold Genome.apply_parsimony_pressure
  rw [hcount]
  refine ⟨fun hf => by rw [if_pos hf], fun hh => ?_, fun hf hh => ?_⟩
  · by_cases hf : f ≤ 0
    · rw [if_pos hf]
    · rw [if_neg hf, if_pos hh]
  · rw [if_neg (not_le.mpr hf), if_neg (not_le.mpr hh)]

/-- C6 amended, witness: the amended theorem evaluated at the concrete
counterexample input (`h = 1 > 0 = complexity_threshold`, penalty `10 - 1
- 1 = 8`). -/
theorem C6_parsimony_amended_witness :
    gPars.apply_parsimony_pressure cfgPars 10 (fun _ => 1) =
      max (10 - (1 : ℚ) * 1 - 1 * 1) (1 / 100000) := by
  have h := (C6_parsimony_amended gPars cfgPars 10 (fun _ => 1)
    (by decide) (by decide) (by decide) (by decide) (by decide) (by decide)
    (by decide) (by decide) (by decide)).2.2 (by norm_num) (by decide)
  rw [h]
  norm_num [gPars, cfgPars, specHiddenNodeCount]

/-! ## Random generator oracle

Every call the Rust code makes into `rand` is modelled by reading the next
value of an explicit oracle stream, so theorems quantify over all random
outcomes: `floats k` is the k-th `random::<f32>()` / float `random_range`
result, `nats k` the k-th integer choice (`choose` picks index
`nats k % len`), `bools k` the k-th `random_bool` result. -/
structure Rng where
  floats : ℕ → ℚ
  nats : ℕ → ℕ
  bools : ℕ → Bool
  fi : ℕ
  ni : ℕ
  bi : ℕ

/-- Consume the next float of the oracle. -/
def Rng.nextFloat (r : Rng) : ℚ × Rng := (r.floats r.fi, { r with fi := r.fi + 1 })

/-- Consume the next integer of the oracle. -/
def Rng.nextNat (r : Rng) : ℕ × Rng := (r.nats r.ni, { r with ni := r.ni + 1 })

/-- Consume the next coin of the oracle. -/
def Rng.nextBool (r : Rng) : Bool × Rng := (r.bools r.bi, { r with bi := r.bi + 1 })

/-- Crossover with the coin stream drawn from (and advanced in) an `Rng`. -/
def crossoverRng (p1 p2 : Genome) (rng : Rng) : Genome × Rng :=
  let r := Genome.crossoverFull p1 p2 (fun k => rng.bools (rng.bi + k))
  (r.1, { rng with bi := rng.bi + r.2 })

/-! ## Add-node mutation (src/genome/genome.rs lines 239-300) -/

/-- `Genome::add_node_mutation`: no-op when there are no connections;
select a random connection key; return unchanged if the selected
connection is disabled; otherwise disable it, take the registry's memoized
split `(new_node_id, in_innovation, out_innovation)`, insert the new
hidden node if absent (CTRNN configs draw its time constant and bias from
the rng), and insert `(src → new)` with weight 1.0 and `(new → dst)` with
the old weight. -/
def Genome.add_node_mutation (g : Genome) (config : NeatConfig) (rng : Rng)
    (record : InnovationRecord) : Genome × Rng × InnovationRecord :=
  if g.connections.isEmpty then (g, rng, record)
  else
    let pick := rng.nextNat
    let rng1 := pick.2
    match g.connections[pick.1 % g.connections.length]? with
    | none => (g, rng1, record)  -- unreachable: the index is below the length
    | some connection =>
      if !connection.enabled then (g, rng1, record)
      else
        -- disable the selected connection (get_mut on its key)
        let conns1 := g.connections.map
          (fun c => if c.innovation = connection.innovation then
            { c with enabled := false } else c)
        let split := record_node_split record connection.innovation
          connection.in_node connection.out_node
        let new_node_id := split.1.1
        let in_conn_innovation := split.1.2.1
        let out_conn_innovation := split.1.2.2
        let record1 := split.2
        let stNode : List NodeGene × Rng :=
          if (nodeLookup g.nodes new_node_id).isSome then (g.nodes, rng1)
          else
            if config.network_type = NetworkType.CTRNN then
              let t := rng1.nextFloat
              let b := t.2.nextFloat
              (insertNode g.nodes
                { NodeGene.new new_node_id config.default_activation_function with
                  time_constant := t.1, bias := b.1 }, b.2)
            else
              (insertNode g.nodes
                (NodeGene.new new_node_id config.default_activation_function), rng1)
        let in_conn := ConnectionGene.new (connection.in_node, new_node_id) 1
          in_conn_innovation
        let out_conn := ConnectionGene.new (new_node_id, connection.out_node)
          connection.weight out_conn_innovation
        ({ g with
            nodes := stNode.1
            connections := insertConnGene (insertConnGene conns1 in_conn) out_conn
            connection_set := setInsert
              (setInsert g.connection_set (connection.in_node, new_node_id))
              (new_node_id, connection.out_node) },
          stNode.2, record1)

/-- Appending a fresh-key gene: the lookup of its key finds it. -/
lemma find?_self_append (l : List ConnectionGene) (c : ConnectionGene)
    (h : ∀ x ∈ l, x.innovation ≠ c.innovation) :
    List.find? (fun x => x.innovation == c.innovation) (l ++ [c]) = some c := by
  induction l with
  | nil => simp
  | cons a t ih =>
      rw [List.cons_append, List.find?_cons_of_neg _ (by simpa using h a (by simp))]
      exact ih (fun x hx => h x (List.mem_cons_of_mem a hx))

/-- Replacing an existing key: the lookup of that key finds the replacement. -/
lemma find?_map_replace_self (t : List ConnectionGene) (c : ConnectionGene)
    (h : ∃ x ∈ t, x.innovation = c.innovation) :
    List.find? (fun x => x.innovation == c.innovation)
      (t.map (fun x => if x.innovation = c.innovation then c else x)) = some c := by
  induction t with
  | nil => simp at h
  | cons a t ih =>
      rw [List.map_cons]
      by_cases ha : a.innovation = c.innovation
      · rw [if_pos ha, List.find?_cons_of_pos _ (by simp)]
      · rw [if_neg ha, List.find?_cons_of_neg _ (by simpa using ha)]
        apply ih
        rcases h with ⟨x, hx, hpx⟩
        rcases List.mem_cons.mp hx with rfl | hxt
        · exact absurd hpx ha
        · exact ⟨x, hxt, hpx⟩

/-- Inserting a gene makes it the lookup result of its own key. -/
lemma connLookup_insert_self (l : List ConnectionGene) (c : ConnectionGene) :
    connLookup (insertConnGene l c) c.innovation = some c := by
  unfold insertConnGene connLookup
  by_cases hany : (l.any (fun x => x.innovation == c.innovation)) = true
  · rw [if_pos hany]
    refine find?_map_replace_self l c ?_
    rcases List.any_eq_true.mp hany with ⟨x, hx, hpx⟩
    exact ⟨x, hx, by simpa using hpx⟩
  · rw [if_neg hany]
    refine find?_self_append l c ?_
    intro x hx hcon
    exact hany (List.any_eq_true.mpr ⟨x, hx, by simpa using hcon⟩)

/-- Appending a gene of a different key leaves that key's lookup unchanged. -/
lemma find?_append_single_ne (l : List ConnectionGene) (c : ConnectionGene) (k : ℕ)
    (hck : c.innovation ≠ k) :
    List.find? (fun x => x.innovation == k) (l ++ [c])
      = List.find? (fun x => x.innovation == k) l := by
  induction l with
  | nil => simp [List.find?_cons, beq_iff_eq, hck]
  | cons a t ih =>
      by_cases hak : (a.innovation == k) = true
      · rw [List.cons_append,
          List.find?_cons_of_pos (p := fun x : ConnectionGene => x.innovation == k) _ hak,
          List.find?_cons_of_pos (p := fun x : ConnectionGene => x.innovation == k) _ hak]
      · rw [List.cons_append,
          List.find?_cons_of_neg (p := fun x : ConnectionGene => x.innovation == k) _ hak,
          List.find?_cons_of_neg (p := fun x : ConnectionGene => x.innovation == k) _ hak, ih]

/-- Replacing a different key leaves a key's lookup unchanged. -/
lemma find?_map_replace_ne (t : List ConnectionGene) (c : ConnectionGene) (k : ℕ)
    (hck : c.innovation ≠ k) :
    List.find? (fun x => x.innovation == k)
        (t.map (fun x => if x.innovation = c.innovation then c else x))
      = List.find? (fun x => x.innovation == k) t := by
  induction t with
  | nil => simp
  | cons a t ih =>
      rw [List.map_cons]
      by_cases ha : a.innovation = c.innovation
      · have hak : ¬((a.innovation == k) = true) := by
          simp only [beq_iff_eq, ha]; exact hck
        rw [if_pos ha,
          List.find?_cons_of_neg (p := fun x : ConnectionGene => x.innovation == k) _ (by simpa using hck),
          List.find?_cons_of_neg (p := fun x : ConnectionGene => x.innovation == k) _ hak, ih]
      · by_cases hak : (a.innovation == k) = true
        · rw [if_neg ha,
            List.find?_cons_of_pos (p := fun x : ConnectionGene => x.innovation == k) _ hak,
            List.find?_cons_of_pos (p := fun x : ConnectionGene => x.innovation == k) _ hak]
        · rw [if_neg ha,
            List.find?_cons_of_neg (p := fun x : ConnectionGene => x.innovation == k) _ hak,
            List.find?_cons_of_neg (p := fun x : ConnectionGene => x.innovation == k) _ hak, ih]

/-- Inserting a gene does not change lookups of other keys. -/
lemma connLookup_insert_other (l : List ConnectionGene) (c : ConnectionGene) (k : ℕ)
    (h : c.innovation ≠ k) :
    connLookup (insertConnGene l c) k = connLookup l k := by
  unfold insertConnGene connLookup
  by_cases hany : (l.any (fun x => x.innovation == c.innovation)) = true
  · rw [if_pos hany, find?_map_replace_ne l c k h]
  · rw [if_neg hany, find?_append_single_ne l c k h]

/-- Disabling a key in the map turns its lookup result into the disabled gene. -/
lemma connLookup_map_disable (l : List ConnectionGene) (key : ℕ) (c : ConnectionGene)
    (h : connLookup l key = some c) :
    connLookup (l.map (fun x => if x.innovation = key then { x with enabled := false }
      else x)) key = some { c with enabled := false } := by
  unfold connLookup at *
  induction l with
  | nil => simp at h
  | cons a t ih =>
      by_cases ha : (a.innovation == key) = true
      · rw [List.find?_cons_of_pos (p := fun x : ConnectionGene => x.innovation == key)
            _ ha] at h
        injection h with h
        subst h
        rw [List.map_cons, if_pos (by simpa using ha),
          List.find?_cons_of_pos (p := fun x : ConnectionGene => x.innovation == key)
            _ (by simpa using ha)]
      · rw [List.find?_cons_of_neg (p := fun x : ConnectionGene => x.innovation == key)
            _ ha] at h
        rw [List.map_cons, if_neg (by simpa using ha),
          List.find?_cons_of_neg (p := fun x : ConnectionGene => x.innovation == key)
            _ (by simpa using ha)]
        exact ih h

/-- Genome of the C5 counterexample: connection 0 (enabled, `0 → 2`) and
connection 1 (disabled, `1 → 2`). -/
def gAdd : Genome :=
  { nodes := [NodeGene.new 0 .Identity, NodeGene.new 1 .Identity, NodeGene.new 2 .Sigmoid]
    connections := [ConnectionGene.mk 1 true 0 2 0, ConnectionGene.mk 2 false 1 2 1]
    connection_set := [(0, 2), (1, 2)]
    input_nodes := [0]
    bias_node := 1
    output_nodes := [2]
    fitness := 0
    adjusted_fitness := 0 }

/-- A random oracle whose every integer draw is `k` (floats 0, coins false). -/
def rngPick (k : ℕ) : Rng :=
  { floats := fun _ => 0, nats := fun _ => k, bools := fun _ => false
    fi := 0, ni := 0, bi := 0 }

/-- A registry whose counters already moved past the ids of `gAdd`. -/
def regAdd : InnovationRecord :=
  { node_innovation_counter := 3
    connection_innovation_counter := 2
    connection_innovations := []
    node_splits := [] }

/-- C5: the claim fails on the code.  `gAdd` has an enabled connection,
yet the mutation is a no-op: the code selects uniformly among all
connections (here index 1, the disabled one) and returns unchanged when
the selection is disabled, instead of selecting among enabled connections
only. -/
theorem C5_add_node_noop_with_enabled_present :
    (gAdd.add_node_mutation cfgPars (rngPick 1) InnovationRecord.new).1 = gAdd ∧
    gAdd.connections.any (·.enabled) = true := by
  constructor
  · decide
  · decide

/-- C5 (amended): the add-node mutation selects a connection uniformly at
random among all connections (enabled or not); it is a no-op when the
genome has no connections or when the selected connection is disabled;
when the selected connection is enabled, it is disabled and the genome
gains `(src, new)` with weight 1.0 and `(new, dst)` carrying the old
weight, under the registry's memoized split ids. -/
theorem C5_add_node_amended (g : Genome) (config : NeatConfig) (rng : Rng)
    (record : InnovationRecord) :
    (g.connections = [] → (g.add_node_mutation config rng record).1 = g) ∧
    (∀ connection : ConnectionGene,
      g.connections[rng.nats rng.ni % g.connections.length]? = some connection →
      (connection.enabled = false → (g.add_node_mutation config rng record).1 = g) ∧
      (connection.enabled = true →
        ∀ nid iin iout : ℕ,
          (record_node_split record connection.innovation connection.in_node
              connection.out_node).1 = (nid, iin, iout) →
          iin ≠ iout →
          connLookup (g.add_node_mutation config rng record).1.connections iout
              = some (ConnectionGene.new (nid, connection.out_node) connection.weight iout)
          ∧ connLookup (g.add_node_mutation config rng record).1.connections iin
              = some (ConnectionGene.new (connection.in_node, nid) 1 iin)
          ∧ (connection.innovation ≠ iin → connection.innovation ≠ iout →
              connLookup g.connections connection.innovation = some connection →
              connLookup (g.add_node_mutation config rng record).1.connections
                  connection.innovation = some { connection with enabled := false }))) := by
  constructor
  · intro h
    simp [Genome.add_node_mutation, h]
  · intro connection hsel
    have hne : g.connections ≠ [] := by
      intro hcon
      rw [hcon] at hsel
      simp at hsel
    have hemp : ¬(g.connections.isEmpty = true) := by
      simpa [List.isEmpty_iff] using hne
    constructor
    · intro hen
      unfold Genome.add_node_mutation
      rw [if_neg hemp]
      simp only [Rng.nextNat]
      rw [hsel]
      simp [hen]
    · intro hen nid iin iout hsplit hne2
      unfold Genome.add_node_mutation
      rw [if_neg hemp]
      simp only [Rng.nextNat]
      rw [hsel]
      simp only [hen, Bool.not_true, Bool.false_eq_true, if_false, hsplit]
      refine ⟨?_, ?_, ?_⟩
      · have h1 := connLookup_insert_self
          (insertConnGene (g.connections.map
            (fun c => if c.innovation = connection.innovation then
              { c with enabled := false } else c))
            (ConnectionGene.new (connection.in_node, nid) 1 iin))
          (ConnectionGene.new (nid, connection.out_node) connection.weight iout)
        simpa [ConnectionGene.new] using h1
      · have h2 := connLookup_insert_other
          (insertConnGene (g.connections.map
            (fun c => if c.innovation = connection.innovation then
              { c with enabled := false } else c))
            (ConnectionGene.new (connection.in_node, nid) 1 iin))
          (ConnectionGene.new (nid, connection.out_node) connection.weight iout) iin
          (by simpa [ConnectionGene.new] using hne2.symm)
        have h3 := connLookup_insert_self
          (g.connections.map (fun c => if c.innovation = connection.innovation then
            { c with enabled := false } else c))
          (ConnectionGene.new (connection.in_node, nid) 1 iin)
        simp only [ConnectionGene.new] at h2 h3 ⊢
        rw [h2, h3]
      · intro hni hno hkey
        have h4 := connLookup_insert_other
          (insertConnGene (g.connections.map
            (fun c => if c.innovation = connection.innovation then
              { c with enabled := false } else c))
            (ConnectionGene.new (connection.in_node, nid) 1 iin))
          (ConnectionGene.new (nid, connection.out_node) connection.weight iout)
          connection.innovation (by simpa [ConnectionGene.new] using hno.symm)
        have h5 := connLookup_insert_other
          (g.connections.map (fun c => if c.innovation = connection.innovation then
            { c with enabled := false } else c))
          (ConnectionGene.new (connection.in_node, nid) 1 iin)
          connection.innovation (by simpa [ConnectionGene.new] using hni.symm)
        have h6 := connLookup_map_disable g.connections connection.innovation
          connection hkey
        simp only [ConnectionGene.new] at h4 h5 ⊢
        rw [h4, h5, h6]

/-- C5 amended, witness: concrete run on `gAdd` with the enabled
connection selected (index 0) and registry `regAdd`; split ids `(3, 2,
3)`; the two inserted genes and the disabled original are all observable
in the result. -/
theorem C5_add_node_amended_witness :
    connLookup (gAdd.add_node_mutation cfgPars (rngPick 0) regAdd).1.connections 3
        = some (ConnectionGene.new (3, 2) 1 3) ∧
    connLookup (gAdd.add_node_mutation cfgPars (rngPick 0) regAdd).1.connections 2
        = some (ConnectionGene.new (0, 3) 1 2) ∧
    connLookup (gAdd.add_node_mutation cfgPars (rngPick 0) regAdd).1.connections 0
        = some { ConnectionGene.mk 1 true 0 2 0 with enabled := false } := by
  have h := ((C5_add_node_amended gAdd cfgPars (rngPick 0) regAdd).2
    (ConnectionGene.mk 1 true 0 2 0) (by decide)).2 (by decide) 3 2 3
    (by decide) (by decide)
  exact ⟨h.1, h.2.1, h.2.2 (by decide) (by decide) (by decide)⟩

/-! ## CTRNN evaluator (src/nn/ctrnn.rs) -/

/-- First position of a node id in a node list. -/
def idxOfNode : List NodeGene → ℕ → Option ℕ
  | [], _ => none
  | n :: rest, id =>
      if n.id = id then some 0 else (idxOfNode rest id).map (· + 1)

/-- `node_to_index`: the position of a node id in the node map's iteration
order (`HashMap` keys are unique, so this is the first matching position). -/
def nodeIdx (g : Genome) (id : ℕ) : Option ℕ :=
  idxOfNode g.nodes id

/-- `CtrnnNetwork`: per-node states, time constants and biases indexed by
node position, the preprocessed enabled connections as
`(from_idx, to_idx, weight)`, and the Euler step `dt`. -/
structure CtrnnNetwork where
  genome : Genome
  states : List ℚ
  time_constants : List ℚ
  biases : List ℚ
  connections : List (ℕ × ℕ × ℚ)
  dt : ℚ
deriving DecidableEq, Repr

/-- `CtrnnNetwork::new`: zero states, parameters read off the node genes
(with unique ids the per-id writes into the index-aligned arrays are
exactly the maps below), enabled connections with both endpoints present,
`dt = 0.1`. -/
def CtrnnNetwork.new (g : Genome) : CtrnnNetwork :=
  { genome := g
    states := List.replicate g.nodes.length 0
    time_constants := g.nodes.map (·.time_constant)
    biases := g.nodes.map (·.bias)
    connections := g.connections.filterMap (fun c =>
      if c.enabled then
        match nodeIdx g c.in_node, nodeIdx g c.out_node with
        | some fidx, some tidx => some (fidx, tidx, c.weight)
        | _, _ => none
      else none)
    dt := 1 / 10 }

/-- `if let Some(&idx) = node_to_index.get(id) { states[idx] = v }`: write
at an optional index. -/
def setAt (s : List ℚ) (oi : Option ℕ) (v : ℚ) : List ℚ :=
  match oi with
  | some i => s.set i v
  | none => s

/-- `CtrnnNetwork::reset_states`: clear all states, set the bias node's
state back to 1. -/
def CtrnnNetwork.reset_states (net : CtrnnNetwork) : CtrnnNetwork :=
  { net with states :=
      (setAt (List.replicate net.states.length (0 : ℚ))
        (nodeIdx net.genome net.genome.bias_node) 1) }

/-- The per-index Euler update of one `activate` step: input indices are
skipped; every other index integrates
`y + dt * (activation(bias + Σ w * y_src) - y) / τ`. -/
def ctrnnUpdate (net : CtrnnNetwork) (tr : Transcendental) (s2 : List ℚ)
    (i : ℕ) : ℚ :=
  if net.genome.input_nodes.any (fun id => nodeIdx net.genome id == some i) then
    s2.getD i 0
  else
    let input_sum := net.biases.getD i 0
      + ((net.connections.filter (fun c => c.2.1 == i)).map
          (fun c => s2.getD c.1 0 * c.2.2)).sum
    match net.genome.nodes.find? (fun n => nodeIdx net.genome n.id == some i) with
    | some node =>
        let target := node.activation.eval tr input_sum
        let dy := (target - s2.getD i 0) / net.time_constants.getD i 1
        s2.getD i 0 + dy * net.dt
    | none => s2.getD i 0  -- unreachable for i below the node count

/-- The state vector of one `activate` step just before the Euler update:
the inputs written at the input-node positions, then the constant 1 at the
bias position. -/
def ctrnnPre (net : CtrnnNetwork) (inputs : List ℚ) : List ℚ :=
  setAt ((net.genome.input_nodes.zip inputs).foldl
      (fun s p => setAt s (nodeIdx net.genome p.1) p.2) net.states)
    (nodeIdx net.genome net.genome.bias_node) 1

/-- The state vector after the Euler update of one `activate` step. -/
def ctrnnStep (net : CtrnnNetwork) (tr : Transcendental) (inputs : List ℚ) :
    List ℚ :=
  (List.range (ctrnnPre net inputs).length).map
    (fun i => ctrnnUpdate net tr (ctrnnPre net inputs) i)

/-- `CtrnnNetwork::activate`: arity check, write the inputs and the bias
constant 1 into the state vector, one Euler step per non-input node
(sources are read as raw states), and return the raw output-node states. -/
def CtrnnNetwork.activate (net : CtrnnNetwork) (tr : Transcendental)
    (inputs : List ℚ) : Option (List ℚ × CtrnnNetwork) :=
  if inputs.length ≠ net.genome.input_nodes.length then none
  else
    some (net.genome.output_nodes.filterMap
        (fun id => (nodeIdx net.genome id).map
          (fun idx => (ctrnnStep net tr inputs).getD idx 0)),
      { net with states := ctrnnStep net tr inputs })

/-- Genome of the C4 counterexample: input 0 (Identity), bias 1
(Identity), output 2 (Sigmoid, node bias 0, τ = 1); both connections into
the output have weight 0. -/
def gCtrnn : Genome :=
  { nodes := [NodeGene.new 0 .Identity, NodeGene.new 1 .Identity, NodeGene.new 2 .Sigmoid]
    connections := [ConnectionGene.mk 0 true 0 2 0, ConnectionGene.mk 0 true 1 2 1]
    connection_set := [(0, 2), (1, 2)]
    input_nodes := [0]
    bias_node := 1
    output_nodes := [2]
    fitness := 0
    adjusted_fitness := 0 }

/-- A transcendental interpretation that is only queried at 0, where the
true sigmoid takes the value `1/(1 + e^0) = 1/2`. -/
def trHalf : Transcendental := { sig := fun _ => 1 / 2, th := fun _ => 0 }

/-- C4: the claim fails on the code.  After `reset_states`, one `activate`
with zero input and zero weights leaves the sigmoid output node's state at
`dt * σ(0) / τ = 0.1 * 0.5 = 1/20 ≠ 0`: the code applies the node's own
activation to the input sum inside the Euler step (`τ dy/dt = -y +
f(I)`), so a zero input sum does not keep the state at zero unless the
activation maps 0 to 0; it also returns raw (un-sigmoided) output states. -/
theorem C4_ctrnn_state_not_zero :
    (((CtrnnNetwork.new gCtrnn).reset_states).activate trHalf [0]).map Prod.fst
      = some [1 / 20] ∧ (1 / 20 : ℚ) ≠ 0 := by
  constructor
  · norm_num [CtrnnNetwork.new, CtrnnNetwork.reset_states, CtrnnNetwork.activate,
      ctrnnPre, ctrnnStep, ctrnnUpdate, nodeIdx, idxOfNode, setAt, gCtrnn, trHalf,
      NodeGene.new,
      ActivationFunction.eval, List.getD, List.range_succ, List.filterMap_cons,
      List.filter_cons, List.sum_cons]
  · norm_num

/-- A position returned by `idxOfNode` carries the looked-up id. -/
lemma idxOfNode_eq_some (l : List NodeGene) (id j : ℕ)
    (h : idxOfNode l id = some j) :
    ∃ hj : j < l.length, (l.get ⟨j, hj⟩).id = id := by
  induction l generalizing j with
  | nil => simp [idxOfNode] at h
  | cons n rest ih =>
      unfold idxOfNode at h
      by_cases hn : n.id = id
      · rw [if_pos hn] at h
        injection h with h
        subst h
        exact ⟨by simp, hn⟩
      · rw [if_neg hn] at h
        cases h2 : idxOfNode rest id with
        | none => rw [h2] at h; simp at h
        | some k =>
            rw [h2] at h
            have hj : j = k + 1 := by
              have := h.symm
              simpa using this
            obtain ⟨hk, hid⟩ := ih k h2
            subst hj
            exact ⟨by simpa using Nat.succ_lt_succ hk, by simpa using hid⟩

/-- With duplicate-free ids, the id of the j-th node indexes back to j. -/
lemma idxOfNode_get (l : List NodeGene) (hnd : (l.map (·.id)).Nodup) :
    ∀ (j : ℕ) (hj : j < l.length), idxOfNode l (l.get ⟨j, hj⟩).id = some j := by
  induction l with
  | nil => intro j hj; simp at hj
  | cons n rest ih =>
      intro j hj
      have hn_not : n.id ∉ rest.map (·.id) := by
        have := hnd
        simp only [List.map_cons, List.nodup_cons] at this
        exact this.1
      have hnodup_rest : (rest.map (·.id)).Nodup := by
        have := hnd
        simp only [List.map_cons, List.nodup_cons] at this
        exact this.2
      cases j with
      | zero => simp [idxOfNode]
      | succ k =>
          have hk : k < rest.length := by simpa using hj
          have hget : ((n :: rest).get ⟨k + 1, hj⟩) = rest.get ⟨k, hk⟩ := rfl
          rw [hget]
          have hne : ¬(n.id = (rest.get ⟨k, hk⟩).id) := by
            intro hcon
            exact hn_not (hcon ▸ List.mem_map.mpr ⟨_, rest.get_mem _ _, rfl⟩)
          unfold idxOfNode
          rw [if_neg hne, ih hnodup_rest k hk]
          rfl

/-- `find?` only depends on the predicate's values on the list. -/
lemma find?_ext {α : Type} (p q : α → Bool) (l : List α)
    (h : ∀ x ∈ l, p x = q x) : l.find? p = l.find? q := by
  induction l with
  | nil => rfl
  | cons a t ih =>
      have ha := h a (by simp)
      by_cases hp : p a = true
      · rw [List.find?_cons_of_pos _ hp, List.find?_cons_of_pos _ (ha ▸ hp)]
      · rw [List.find?_cons_of_neg _ hp, List.find?_cons_of_neg _ (by rw [← ha]; exact hp)]
        exact ih (fun x hx => h x (List.mem_cons_of_mem a hx))

/-- With duplicate-free ids, the node found for index i is the i-th node. -/
lemma find?_nodeIdx (l : List NodeGene) (hnd : (l.map (·.id)).Nodup) :
    ∀ (i : ℕ) (hi : i < l.length),
      l.find? (fun n => idxOfNode l n.id == some i) = some (l.get ⟨i, hi⟩) := by
  induction l with
  | nil => intro i hi; simp at hi
  | cons n rest ih =>
      intro i hi
      have hn_not : n.id ∉ rest.map (·.id) := by
        have := hnd
        simp only [List.map_cons, List.nodup_cons] at this
        exact this.1
      have hnodup_rest : (rest.map (·.id)).Nodup := by
        have := hnd
        simp only [List.map_cons, List.nodup_cons] at this
        exact this.2
      cases i with
      | zero =>
          have hp : (idxOfNode (n :: rest) n.id == some 0) = true := by
            simp [idxOfNode]
          rw [List.find?_cons_of_pos
            (p := fun x : NodeGene => idxOfNode (n :: rest) x.id == some 0) _ hp]
          rfl
      | succ k =>
          have hk : k < rest.length := by simpa using hi
          have hpn : ¬((idxOfNode (n :: rest) n.id == some (k + 1)) = true) := by
            simp [idxOfNode]
          rw [List.find?_cons_of_neg
            (p := fun x : NodeGene => idxOfNode (n :: rest) x.id == some (k + 1)) _ hpn]
          have hext : ∀ x ∈ rest, (idxOfNode (n :: rest) x.id == some (k + 1))
              = (idxOfNode rest x.id == some k) := by
            intro x hx
            have hxn : ¬(n.id = x.id) := by
              intro hcon
              exact hn_not (hcon ▸ List.mem_map.mpr ⟨x, hx, rfl⟩)
            have hrw : idxOfNode (n :: rest) x.id
                = (idxOfNode rest x.id).map (· + 1) := by
              show (if n.id = x.id then some 0
                else (idxOfNode rest x.id).map (· + 1)) = _
              rw [if_neg hxn]
            rw [hrw]
            cases h2 : idxOfNode rest x.id with
            | none => simp
            | some j =>
                by_cases hjk : j = k
                · simp [hjk]
                · simp [hjk, show ¬(j + 1 = k + 1) from by omega]
          rw [find?_ext _ _ rest hext, ih hnodup_rest k hk]
          rfl

/-- A fold preserves a property preserved by every step. -/
lemma foldl_preserve {α β : Type} (P : α → Prop) (f : α → β → α) (l : List β)
    (s : α) (h0 : P s) (hstep : ∀ a b, b ∈ l → P a → P (f a b)) :
    P (l.foldl f s) := by
  induction l generalizing s with
  | nil => exact h0
  | cons b t ih =>
      exact ih (f s b) (hstep s b (by simp) h0)
        (fun a c hc ha => hstep a c (List.mem_cons_of_mem b hc) ha)

/-- `setAt` never changes the length. -/
lemma setAt_length (s : List ℚ) (oi : Option ℕ) (v : ℚ) :
    (setAt s oi v).length = s.length := by
  cases oi <;> simp [setAt]

/-- `setAt` does not touch positions other than its target. -/
lemma setAt_getD_ne (s : List ℚ) (oi : Option ℕ) (v : ℚ) (i : ℕ)
    (h : ∀ j, oi = some j → j ≠ i) :
    (setAt s oi v).getD i 0 = s.getD i 0 := by
  cases oi with
  | none => rfl
  | some j =>
      simp only [setAt]
      rw [List.getD_eq_getElem?_getD, List.getElem?_set_ne (h j rfl),
        ← List.getD_eq_getElem?_getD]

/-- C4 (amended): one CTRNN activate step computes, for every non-input
node i, an input `I_i = bias_i + Σ w * y_src` over enabled incoming
connections using raw (not sigmoided) source states, performs one Euler
step `y_i += dt * (f_i(I_i) - y_i) / τ_i` where `f_i` is the node's own
activation, with default step `dt = 0.1`, and returns raw output-node
states.  Consequently `reset_states` followed by one activate with zero
input, zero weights and zero node biases leaves every non-input,
non-bias state at `dt * f_i(0) / τ_i`, which is zero exactly when the
node's activation maps 0 to 0 (Identity, Tanh, Relu, LeakyRelu) and is
`dt/(2 τ_i)` for Sigmoid. -/
theorem C4_ctrnn_amended (g : Genome) (tr : Transcendental)
    (hnd : (g.nodes.map (·.id)).Nodup)
    (hw : ∀ c ∈ g.connections, c.weight = 0)
    (hb : ∀ n ∈ g.nodes, n.bias = 0)
    (i : ℕ) (hi : i < g.nodes.length)
    (hτ : (g.nodes.get ⟨i, hi⟩).time_constant ≠ 0)
    (hniIn : (g.nodes.get ⟨i, hi⟩).id ∉ g.input_nodes)
    (hniBias : (g.nodes.get ⟨i, hi⟩).id ≠ g.bias_node) :
    (((CtrnnNetwork.new g).reset_states).activate tr
        (List.replicate g.input_nodes.length 0)).map
      (fun r => r.2.states.getD i 0)
      = some ((g.nodes.get ⟨i, hi⟩).activation.eval tr 0
          / (g.nodes.get ⟨i, hi⟩).time_constant * (1 / 10)) := by
  set node := g.nodes.get ⟨i, hi⟩ with hnode
  set net1 := (CtrnnNetwork.new g).reset_states with hnet1
  -- facts about the constructed network (all projections of literals)
  have hgen : net1.genome = g := rfl
  have hdt : net1.dt = 1 / 10 := rfl
  have hbiases : net1.biases = g.nodes.map (·.bias) := rfl
  have htc : net1.time_constants = g.nodes.map (·.time_constant) := rfl
  have hstates : net1.states =
      setAt (List.replicate (List.replicate g.nodes.length (0 : ℚ)).length 0)
        (nodeIdx g g.bias_node) 1 := rfl
  -- no node index hit by the bias or an input write can be i
  have hnotbias : ∀ j, nodeIdx g g.bias_node = some j → j ≠ i := by
    intro j hb2 hcon
    subst hcon
    obtain ⟨hj, hjid⟩ := idxOfNode_eq_some g.nodes g.bias_node j hb2
    exact hniBias (by rw [hnode]; exact hjid)
  have hreplgetD : ∀ n : ℕ, (List.replicate n (0 : ℚ)).getD i 0 = 0 := by
    intro n
    rw [List.getD_eq_getElem?_getD, List.getElem?_replicate]
    split <;> rfl
  have hbase : net1.states.getD i 0 = 0 := by
    rw [hstates, setAt_getD_ne _ _ _ _ hnotbias, hreplgetD]
  have hlen0 : net1.states.length = g.nodes.length := by
    rw [hstates, setAt_length, List.length_replicate, List.length_replicate]
  -- the pre-update state vector is 0 at index i
  have hs2zero : (ctrnnPre net1 (List.replicate g.input_nodes.length 0)).getD i 0 = 0 := by
    unfold ctrnnPre
    rw [setAt_getD_ne _ _ _ _ (by rw [hgen]; exact hnotbias)]
    refine foldl_preserve (fun s : List ℚ => s.getD i 0 = 0) _ _ _ hbase ?_
    intro s p hp hs
    refine (setAt_getD_ne _ _ _ _ ?_).trans hs
    intro j hidx hcon
    subst hcon
    rw [hgen] at hidx
    obtain ⟨hj, hjid⟩ := idxOfNode_eq_some g.nodes p.1 j hidx
    refine hniIn ?_
    rw [hnode, hjid]
    have hp2 := List.of_mem_zip hp
    rw [hgen] at hp2
    exact hp2.1
  have hs2len : (ctrnnPre net1 (List.replicate g.input_nodes.length 0)).length
      = g.nodes.length := by
    unfold ctrnnPre
    rw [setAt_length]
    refine foldl_preserve (fun s : List ℚ => s.length = g.nodes.length) _ _ _ hlen0 ?_
    intro s p _ hs
    rw [setAt_length]
    exact hs
  -- unfold the activate call
  unfold CtrnnNetwork.activate
  rw [if_neg (by simp [hgen])]
  simp only [Option.map_some']
  refine congrArg some ?_
  show (ctrnnStep net1 tr (List.replicate g.input_nodes.length 0)).getD i 0 = _
  unfold ctrnnStep
  rw [List.getD_eq_getElem?_getD, List.getElem?_map,
    List.getElem?_range (by rw [hs2len]; exact hi)]
  simp only [Option.map_some', Option.getD_some]
  -- evaluate the update at index i
  unfold ctrnnUpdate
  have hskip : (net1.genome.input_nodes.any
      (fun id => nodeIdx net1.genome id == some i)) = false := by
    rw [List.any_eq_false]
    intro id hid
    simp only [beq_iff_eq]
    intro hcon
    rw [hgen] at hcon
    obtain ⟨hj, hjid⟩ := idxOfNode_eq_some g.nodes id i hcon
    rw [hgen] at hid
    exact hniIn (by rw [hnode, hjid]; exact hid)
  rw [hskip]
  simp only [Bool.false_eq_true, if_false]
  have hfind : net1.genome.nodes.find?
      (fun n => nodeIdx net1.genome n.id == some i) = some node := by
    rw [hgen]
    exact find?_nodeIdx g.nodes hnd i hi
  rw [hfind]
  have hbias_i : net1.biases.getD i 0 = 0 := by
    rw [hbiases, List.getD_eq_getElem?_getD, List.getElem?_map,
      List.getElem?_eq_getElem hi]
    simp only [Option.map_some', Option.getD_some]
    exact hb _ (g.nodes.get_mem _ _)
  have htc_i : net1.time_constants.getD i 1 = node.time_constant := by
    rw [htc, List.getD_eq_getElem?_getD, List.getElem?_map,
      List.getElem?_eq_getElem hi]
    simp [hnode]
  have hsum : ((net1.connections.filter (fun c => c.2.1 == i)).map
      (fun c => (ctrnnPre net1 (List.replicate g.input_nodes.length 0)).getD c.1 0
        * c.2.2)).sum = 0 := by
    refine List.sum_eq_zero ?_
    intro q hq
    obtain ⟨c, hc, rfl⟩ := List.mem_map.mp hq
    have hcmem : c ∈ net1.connections := (List.mem_filter.mp hc).1
    have hw0 : c.2.2 = 0 := by
      have hfm : net1.connections = g.connections.filterMap (fun c2 =>
        if c2.enabled then
          match nodeIdx g c2.in_node, nodeIdx g c2.out_node with
          | some fidx, some tidx => some (fidx, tidx, c2.weight)
          | _, _ => none
        else none) := rfl
      rw [hfm] at hcmem
      obtain ⟨c2, hc2, hc2eq⟩ := List.mem_filterMap.mp hcmem
      by_cases he : c2.enabled = true
      · rw [if_pos he] at hc2eq
        cases h3 : nodeIdx g c2.in_node with
        | none => rw [h3] at hc2eq; simp at hc2eq
        | some fidx =>
            cases h4 : nodeIdx g c2.out_node with
            | none => rw [h3, h4] at hc2eq; simp at hc2eq
            | some tidx =>
                rw [h3, h4] at hc2eq
                simp only [Option.some_inj] at hc2eq
                rw [← hc2eq]
                exact hw c2 hc2
      · rw [if_neg he] at hc2eq; simp at hc2eq
    rw [hw0, mul_zero]
  rw [hbias_i, htc_i, hsum, hs2zero, hdt]
  ring

/-- C4 amended, witness: on `gCtrnn` (Sigmoid output node, index 2, τ =
1), reset plus one zero-input activate leaves the output state at
`0.1 * σ(0) / 1 = 1/20`. -/
theorem C4_ctrnn_amended_witness :
    (((CtrnnNetwork.new gCtrnn).reset_states).activate trHalf
        (List.replicate gCtrnn.input_nodes.length 0)).map
      (fun r => r.2.states.getD 2 0) = some (1 / 20) := by
  have h := C4_ctrnn_amended gCtrnn trHalf (by decide) (by decide) (by decide) 2
    (by norm_num [gCtrnn]) (by decide) (by decide) (by decide)
  rw [h]
  norm_num [gCtrnn, NodeGene.new, ActivationFunction.eval, trHalf]

/-! ## Genesis (src/genome/genome.rs `create_initial_genome`) -/

/-- One turn of the input-node loop of `create_initial_genome`. -/
def genesisInputStep (st : List NodeGene × List ℕ × InnovationRecord) (_ : ℕ) :
    List NodeGene × List ℕ × InnovationRecord :=
  let p := record_node_innovation st.2.2
  (st.1 ++ [NodeGene.new p.1 ActivationFunction.Identity], st.2.1 ++ [p.1], p.2)

/-- One turn of the output-node loop of `create_initial_genome` (CTRNN
configs draw τ and bias from the rng). -/
def genesisOutputStep (config : NeatConfig)
    (st : List NodeGene × List ℕ × InnovationRecord × Rng) (_ : ℕ) :
    List NodeGene × List ℕ × InnovationRecord × Rng :=
  let p := record_node_innovation st.2.2.1
  let node0 := NodeGene.new p.1 config.default_activation_function
  if config.network_type = NetworkType.CTRNN then
    let t := st.2.2.2.nextFloat
    let b := t.2.nextFloat
    (st.1 ++ [{ node0 with time_constant := t.1, bias := b.1 }],
      st.2.1 ++ [p.1], p.2, b.2)
  else
    (st.1 ++ [node0], st.2.1 ++ [p.1], p.2, st.2.2.2)

/-- The `(source, target)` pairs wired at genesis: every input to every
output (outer loop over inputs), then the bias to every output. -/
def genesisPairs (inputs outputs : List ℕ) (bias : ℕ) : List (ℕ × ℕ) :=
  (inputs.map (fun i => outputs.map (fun j => (i, j)))).flatten
    ++ outputs.map (fun j => (bias, j))

/-- One turn of the connection loop of `create_initial_genome`. -/
def genesisConnStep (st : List ConnectionGene × List (ℕ × ℕ) × InnovationRecord × Rng)
    (p : ℕ × ℕ) : List ConnectionGene × List (ℕ × ℕ) × InnovationRecord × Rng :=
  let innovP := record_connection_innovation st.2.2.1 p.1 p.2
  let w := st.2.2.2.nextFloat
  (insertConnGene st.1 (ConnectionGene.new p w.1 innovP.1),
    setInsert st.2.1 p, innovP.2, w.2)

/-- `Genome::create_initial_genome(input_size, output_size, config, rng,
innovation)`: allocate input nodes (Identity), one bias node (Identity),
output nodes (default activation; CTRNN configs draw τ and bias from the
rng); wire every input and the bias to every output with a random weight
and a registry innovation id. -/
def Genome.create_initial_genome (input_size output_size : ℕ) (config : NeatConfig)
    (rng : Rng) (innovation : InnovationRecord) : Genome × Rng × InnovationRecord :=
  let stI := (List.range input_size).foldl genesisInputStep ([], [], innovation)
  let pBias := record_node_innovation stI.2.2
  let bias_idx := pBias.1
  let nodes1 := stI.1 ++ [NodeGene.new bias_idx ActivationFunction.Identity]
  let stO := (List.range output_size).foldl (genesisOutputStep config)
    ([], [], pBias.2, rng)
  let stC := (genesisPairs stI.2.1 stO.2.1 bias_idx).foldl genesisConnStep
    ([], [], stO.2.2.1, stO.2.2.2)
  ({ nodes := nodes1 ++ stO.1
     connections := stC.1
     connection_set := stC.2.1
     input_nodes := stI.2.1
     bias_node := bias_idx
     output_nodes := stO.2.1
     fitness := 0
     adjusted_fitness := 0 }, stC.2.2.2, stC.2.2.1)

/-- The genome produced by genesis. -/
def genesisG (input_size output_size : ℕ) (config : NeatConfig) (rng : Rng)
    (innovation : InnovationRecord) : Genome :=
  (Genome.create_initial_genome input_size output_size config rng innovation).1

/-! ## Feedforward evaluator (src/nn/feedforward.rs) -/

/-- `FeedforwardNetwork`: the borrowed genome, the Kahn topological order
of the peelable nodes, and the set of edges consumed by the peeling. -/
structure FeedforwardNetwork where
  genome : Genome
  sorted_nodes : List ℕ
  used_connections : List (ℕ × ℕ)

/-- The Kahn peeling loop: pop a node, record its outgoing edges as used,
decrement the in-degree of their targets, enqueue targets reaching zero,
clear the node's edges.  Fuel bounds the number of pops (each node is
enqueued at most once, so `nodes.length` suffices). -/
def kahnLoop : ℕ → List ℕ → (ℕ → List ℕ) → (ℕ → ℕ) → List ℕ × List (ℕ × ℕ)
  | 0, _, _, _ => ([], [])
  | _ + 1, [], _, _ => ([], [])
  | fuel + 1, node :: rest, graph, indeg =>
      let step := (graph node).foldl
        (fun (st : List ℕ × (ℕ → ℕ) × List (ℕ × ℕ)) next =>
          ((if st.2.1 next - 1 = 0 then st.1 ++ [next] else st.1),
            fun v => if v = next then st.2.1 next - 1 else st.2.1 v,
            st.2.2 ++ [(node, next)]))
        (rest, indeg, [])
      let r := kahnLoop fuel step.1 (fun v => if v = node then [] else graph v) step.2.1
      (node :: r.1, step.2.2 ++ r.2)

/-- `FeedforwardNetwork::new`: adjacency and in-degrees from the enabled
connections (well-formed genomes have all endpoints among the nodes),
initial queue of zero-in-degree nodes in node order, then the peeling. -/
def FeedforwardNetwork.new (g : Genome) : FeedforwardNetwork :=
  let adjacency := fun v =>
    (g.connections.filter (fun c => c.enabled && c.in_node == v)).map (·.out_node)
  let indeg0 := fun v =>
    (g.connections.filter (fun c => c.enabled && c.out_node == v)).length
  let queue0 := (g.nodes.map (·.id)).filter (fun v => indeg0 v == 0)
  let kr := kahnLoop g.nodes.length queue0 adjacency indeg0
  { genome := g, sorted_nodes := kr.1, used_connections := kr.2 }

/-- One node of the feedforward evaluation: skip inputs; otherwise sum
`w * out(src)` over enabled, surviving incoming edges with both endpoints
present, apply the node's activation, store at the node's position. -/
def ffwNode (net : FeedforwardNetwork) (tr : Transcendental) (s : List ℚ)
    (node_id : ℕ) : List ℚ :=
  if net.genome.input_nodes.contains node_id then s
  else
    let weighted := (net.genome.connections.filter (fun c =>
        c.out_node == node_id && c.enabled
          && decide ((c.in_node, c.out_node) ∈ net.used_connections)
          && (nodeIdx net.genome c.in_node).isSome
          && (nodeIdx net.genome c.out_node).isSome)).map
      (fun c => s.getD ((nodeIdx net.genome c.in_node).getD 0) 0 * c.weight)
    match nodeLookup net.genome.nodes node_id with
    | some node => setAt s (nodeIdx net.genome node_id)
        (node.activation.eval tr weighted.sum)
    | none => s  -- ill-formed genome: the Rust code would panic here

/-- The zero-seeded vector with the inputs written at the input positions. -/
def ffwInit (net : FeedforwardNetwork) (inputs : List ℚ) : List ℚ :=
  (net.genome.input_nodes.zip inputs).foldl
    (fun s p => setAt s (nodeIdx net.genome p.1) p.2)
    (List.replicate net.genome.nodes.length (0 : ℚ))

/-- The full node-output vector of one feedforward activation: zero-seeded,
inputs written at input positions, nodes processed in topological order. -/
def ffwRun (net : FeedforwardNetwork) (tr : Transcendental) (inputs : List ℚ) :
    List ℚ :=
  net.sorted_nodes.foldl (ffwNode net tr) (ffwInit net inputs)

/-- `FeedforwardNetwork::activate`: arity check, then the run above, and
the values at the output-node positions. -/
def FeedforwardNetwork.activate (net : FeedforwardNetwork) (tr : Transcendental)
    (inputs : List ℚ) : Option (List ℚ) :=
  if inputs.length ≠ net.genome.input_nodes.length then none
  else
    some (net.genome.output_nodes.filterMap
      (fun id => (nodeIdx net.genome id).map
        (fun idx => (ffwRun net tr inputs).getD idx 0)))

/-- `insertConnGene` preserves a property held by the list and the gene. -/
lemma insertConnGene_forall {P : ConnectionGene → Prop} (l : List ConnectionGene)
    (c : ConnectionGene) (hl : ∀ x ∈ l, P x) (hc : P c) :
    ∀ x ∈ insertConnGene l c, P x := by
  unfold insertConnGene
  intro x hx
  by_cases hany : (l.any (fun y => y.innovation == c.innovation)) = true
  · rw [if_pos hany] at hx
    obtain ⟨y, hy, hyx⟩ := List.mem_map.mp hx
    by_cases h : y.innovation = c.innovation
    · rw [if_pos h] at hyx; rw [← hyx]; exact hc
    · rw [if_neg h] at hyx; rw [← hyx]; exact hl y hy
  · rw [if_neg hany] at hx
    rcases List.mem_append.mp hx with h | h
    · exact hl x h
    · rw [List.mem_singleton.mp h]; exact hc

/-- Input-loop invariant of genesis: every created node carries an id
below the running node counter and the Identity activation. -/
lemma genesisInput_inv (l : List ℕ) (st0 : List NodeGene × List ℕ × InnovationRecord)
    (h0 : (∀ m ∈ st0.1, m.id < st0.2.2.node_innovation_counter
        ∧ m.activation = ActivationFunction.Identity)
      ∧ ∀ id ∈ st0.2.1, id < st0.2.2.node_innovation_counter) :
    (∀ m ∈ (l.foldl genesisInputStep st0).1,
        m.id < (l.foldl genesisInputStep st0).2.2.node_innovation_counter
          ∧ m.activation = ActivationFunction.Identity)
      ∧ ∀ id ∈ (l.foldl genesisInputStep st0).2.1,
        id < (l.foldl genesisInputStep st0).2.2.node_innovation_counter := by
  refine foldl_preserve (fun st => (∀ m ∈ st.1,
      m.id < st.2.2.node_innovation_counter
        ∧ m.activation = ActivationFunction.Identity)
      ∧ ∀ id ∈ st.2.1, id < st.2.2.node_innovation_counter)
    genesisInputStep l st0 h0 ?_
  intro st k _ hP
  unfold genesisInputStep record_node_innovation
  refine ⟨?_, ?_⟩
  · intro m hm
    rcases List.mem_append.mp hm with h | h
    · exact ⟨Nat.lt_succ_of_lt (hP.1 m h).1, (hP.1 m h).2⟩
    · rw [List.mem_singleton.mp h]
      exact ⟨Nat.lt_succ_self _, rfl⟩
  · intro id hid
    rcases List.mem_append.mp hid with h | h
    · exact Nat.lt_succ_of_lt (hP.2 id h)
    · rw [List.mem_singleton.mp h]
      exact Nat.lt_succ_self _

/-- Output-loop invariant of genesis: every created node id stays above a
bound already below the running counter. -/
lemma genesisOutput_inv (config : NeatConfig) (l : List ℕ) (B : ℕ)
    (st0 : List NodeGene × List ℕ × InnovationRecord × Rng)
    (h0 : (∀ m ∈ st0.1, B < m.id) ∧ (∀ id ∈ st0.2.1, B < id)
      ∧ B < st0.2.2.1.node_innovation_counter) :
    (∀ m ∈ (l.foldl (genesisOutputStep config) st0).1, B < m.id)
      ∧ (∀ id ∈ (l.foldl (genesisOutputStep config) st0).2.1, B < id)
      ∧ B < (l.foldl (genesisOutputStep config) st0).2.2.1.node_innovation_counter := by
  refine foldl_preserve (fun st => (∀ m ∈ st.1, B < m.id)
      ∧ (∀ id ∈ st.2.1, B < id) ∧ B < st.2.2.1.node_innovation_counter)
    (genesisOutputStep config) l st0 h0 ?_
  intro st k _ hP
  unfold genesisOutputStep record_node_innovation
  by_cases hnt : config.network_type = NetworkType.CTRNN
  · rw [if_pos hnt]
    refine ⟨?_, ?_, Nat.lt_succ_of_lt hP.2.2⟩
    · intro m hm
      rcases List.mem_append.mp hm with h | h
      · exact hP.1 m h
      · rw [List.mem_singleton.mp h]; exact hP.2.2
    · intro id hid
      rcases List.mem_append.mp hid with h | h
      · exact hP.2.1 id h
      · rw [List.mem_singleton.mp h]; exact hP.2.2
  · rw [if_neg hnt]
    refine ⟨?_, ?_, Nat.lt_succ_of_lt hP.2.2⟩
    · intro m hm
      rcases List.mem_append.mp hm with h | h
      · exact hP.1 m h
      · rw [List.mem_singleton.mp h]; exact hP.2.2
    · intro id hid
      rcases List.mem_append.mp hid with h | h
      · exact hP.2.1 id h
      · rw [List.mem_singleton.mp h]; exact hP.2.2

/-- Connection-loop invariant of genesis: every created gene's target is
one of the pairs' targets. -/
lemma genesisConn_inv (pairs : List (ℕ × ℕ)) (outs : List ℕ)
    (hp : ∀ p ∈ pairs, p.2 ∈ outs)
    (st0 : List ConnectionGene × List (ℕ × ℕ) × InnovationRecord × Rng)
    (h0 : ∀ c ∈ st0.1, c.out_node ∈ outs) :
    ∀ c ∈ (pairs.foldl genesisConnStep st0).1, c.out_node ∈ outs := by
  refine foldl_preserve (fun st => ∀ c ∈ st.1, c.out_node ∈ outs)
    genesisConnStep pairs st0 h0 ?_
  intro st p hpmem hP
  unfold genesisConnStep
  exact insertConnGene_forall _ _ hP (hp p hpmem)

/-- Every genesis pair targets an output node. -/
lemma genesisPairs_snd (inputs outputs : List ℕ) (bias : ℕ) :
    ∀ p ∈ genesisPairs inputs outputs bias, p.2 ∈ outputs := by
  intro p hp
  unfold genesisPairs at hp
  rcases List.mem_append.mp hp with h | h
  · obtain ⟨sub, hsub, hpsub⟩ := List.mem_flatten.mp h
    obtain ⟨i, _, rfl⟩ := List.mem_map.mp hsub
    obtain ⟨j, hj, rfl⟩ := List.mem_map.mp hpsub
    exact hj
  · obtain ⟨j, hj, rfl⟩ := List.mem_map.mp h
    exact hj

/-- Genesis facts used by C10: the bias node is not an input, every node
carrying the bias id has the Identity activation, and no connection
targets the bias node. -/
lemma genesis_bias_facts (I O : ℕ) (config : NeatConfig) (rng : Rng)
    (record : InnovationRecord) :
    ((genesisG I O config rng record).bias_node
        ∉ (genesisG I O config rng record).input_nodes)
    ∧ (∀ n ∈ (genesisG I O config rng record).nodes,
        n.id = (genesisG I O config rng record).bias_node →
          n.activation = ActivationFunction.Identity)
    ∧ (∀ c ∈ (genesisG I O config rng record).connections,
        c.out_node ≠ (genesisG I O config rng record).bias_node) := by
  have hI := genesisInput_inv (List.range I) ([], [], record)
    (by constructor <;> intro x hx <;> simp at hx)
  set stI := (List.range I).foldl genesisInputStep ([], [], record) with hstI
  set B := stI.2.2.node_innovation_counter with hB
  have hO := genesisOutput_inv config (List.range O) B
    ([], [], (record_node_innovation stI.2.2).2, rng)
    (by
      refine ⟨by intro x hx; simp at hx, by intro x hx; simp at hx, ?_⟩
      show B < (record_node_innovation stI.2.2).2.node_innovation_counter
      unfold record_node_innovation
      exact Nat.lt_succ_self _)
  set stO := (List.range O).foldl (genesisOutputStep config)
    ([], [], (record_node_innovation stI.2.2).2, rng) with hstO
  have hC := genesisConn_inv (genesisPairs stI.2.1 stO.2.1 B) stO.2.1
    (genesisPairs_snd _ _ _) ([], [], stO.2.2.1, stO.2.2.2)
    (by intro c hc; simp at hc)
  have ebias : (genesisG I O config rng record).bias_node = B := rfl
  have ein : (genesisG I O config rng record).input_nodes = stI.2.1 := rfl
  have enodes : (genesisG I O config rng record).nodes
      = (stI.1 ++ [NodeGene.new B ActivationFunction.Identity]) ++ stO.1 := rfl
  have econns : (genesisG I O config rng record).connections
      = ((genesisPairs stI.2.1 stO.2.1 B).foldl genesisConnStep
        ([], [], stO.2.2.1, stO.2.2.2)).1 := rfl
  refine ⟨?_, ?_, ?_⟩
  · rw [ebias, ein]
    intro hmem
    exact absurd rfl (Nat.ne_of_lt (hI.2 B hmem)).symm
  · rw [ebias, enodes]
    intro n hn hid
    rcases List.mem_append.mp hn with h | h
    · rcases List.mem_append.mp h with h2 | h2
      · exact absurd hid (Nat.ne_of_lt (hI.1 n h2).1)
      · rw [List.mem_singleton.mp h2]; rfl
    · exact absurd hid.symm (Nat.ne_of_lt (hO.1 n h))
  · rw [ebias, econns]
    intro c hc hcon
    have hout := hC c hc
    rw [hcon] at hout
    exact absurd rfl (Nat.ne_of_lt (hO.2.1 B hout)).symm

/-- Writing 0 at a position makes the read-back 0 (also when the position
is out of range, where the default 0 is returned). -/
lemma set_getD_self_zero (s : List ℚ) (j : ℕ) : (s.set j 0).getD j 0 = 0 := by
  rcases Nat.lt_or_ge j s.length with h | h
  · rw [List.getD_eq_getElem?_getD, List.getElem?_set_self (by simpa using h)]
    rfl
  · rw [List.getD_eq_getElem?_getD, List.getElem?_eq_none (by simpa using h)]
    rfl

/-- C10: in the feedforward evaluator the bias node's position is never
set to the constant 1 — its value is its activation applied to an empty
weighted sum — so on a genesis genome (bias activation Identity, no
incoming edges into the bias) the bias position holds 0 after every prefix
of the evaluation, every bias-sourced summand `out(bias) * w` equals 0,
and the final vector also holds 0 at the bias position. -/
theorem C10_ffw_bias_contributes_zero (I O : ℕ) (config : NeatConfig) (rng : Rng)
    (record : InnovationRecord) (tr : Transcendental) (inputs : List ℚ) (j : ℕ)
    (hj : nodeIdx (genesisG I O config rng record)
        (genesisG I O config rng record).bias_node = some j) :
    (∀ k : ℕ,
      (((FeedforwardNetwork.new (genesisG I O config rng record)).sorted_nodes.take k).foldl
          (ffwNode (FeedforwardNetwork.new (genesisG I O config rng record)) tr)
          (ffwInit (FeedforwardNetwork.new (genesisG I O config rng record)) inputs)
        ).getD j 0 = 0) ∧
    (∀ k : ℕ, ∀ c ∈ (genesisG I O config rng record).connections,
      c.in_node = (genesisG I O config rng record).bias_node →
      (((FeedforwardNetwork.new (genesisG I O config rng record)).sorted_nodes.take k).foldl
          (ffwNode (FeedforwardNetwork.new (genesisG I O config rng record)) tr)
          (ffwInit (FeedforwardNetwork.new (genesisG I O config rng record)) inputs)
        ).getD j 0 * c.weight = 0) ∧
    (ffwRun (FeedforwardNetwork.new (genesisG I O config rng record)) tr inputs
      ).getD j 0 = 0 := by
  obtain ⟨hA, hB, hC⟩ := genesis_bias_facts I O config rng record
  set g := genesisG I O config rng record with hg
  set net := FeedforwardNetwork.new g with hnet
  have hgen : net.genome = g := rfl
  have hinit : (ffwInit net inputs).getD j 0 = 0 := by
    unfold ffwInit
    refine foldl_preserve (fun s : List ℚ => s.getD j 0 = 0) _ _ _ ?_ ?_
    · show (List.replicate net.genome.nodes.length (0 : ℚ)).getD j 0 = 0
      rw [List.getD_eq_getElem?_getD, List.getElem?_replicate]
      split <;> rfl
    · intro s p hp hs
      refine (setAt_getD_ne _ _ _ _ ?_).trans hs
      intro m hidx hcon
      rw [hcon] at hidx
      rw [hgen] at hidx
      obtain ⟨hj1, hid1⟩ := idxOfNode_eq_some g.nodes p.1 j hidx
      obtain ⟨hj2, hid2⟩ := idxOfNode_eq_some g.nodes g.bias_node j hj
      have hid2b : (g.nodes.get ⟨j, hj1⟩).id = g.bias_node := hid2
      have hpb : p.1 = g.bias_node := by rw [← hid1, hid2b]
      have hpmem : p.1 ∈ net.genome.input_nodes := (List.of_mem_zip hp).1
      rw [hgen] at hpmem
      exact hA (hpb ▸ hpmem)
  have hstep : ∀ (s : List ℚ) (node_id : ℕ), s.getD j 0 = 0 →
      (ffwNode net tr s node_id).getD j 0 = 0 := by
    intro s node_id hs
    unfold ffwNode
    by_cases hin : (net.genome.input_nodes.contains node_id) = true
    · rw [if_pos hin]; exact hs
    · rw [if_neg hin]
      cases hlook : nodeLookup net.genome.nodes node_id with
      | none => exact hs
      | some node =>
          cases hidx : nodeIdx net.genome node_id with
          | none => exact hs
          | some m =>
              by_cases hm : m = j
              · subst hm
                rw [hgen] at hidx
                obtain ⟨hj1, hid1⟩ := idxOfNode_eq_some g.nodes node_id m hidx
                obtain ⟨hj2, hid2⟩ := idxOfNode_eq_some g.nodes g.bias_node m hj
                have hid2b : (g.nodes.get ⟨m, hj1⟩).id = g.bias_node := hid2
                have hnb : node_id = g.bias_node := by rw [← hid1, hid2b]
                have hnodemem : node ∈ net.genome.nodes :=
                  List.mem_of_find?_eq_some hlook
                have hnodeid : node.id = node_id := by
                  have := List.find?_some hlook
                  simpa using this
                have hact : node.activation = ActivationFunction.Identity := by
                  apply hB node (by rw [hgen] at hnodemem; exact hnodemem)
                  rw [hnodeid, hnb]
                have hwempty : (net.genome.connections.filter (fun c =>
                    c.out_node == node_id && c.enabled
                      && decide ((c.in_node, c.out_node) ∈ net.used_connections)
                      && (nodeIdx net.genome c.in_node).isSome
                      && (nodeIdx net.genome c.out_node).isSome)) = [] := by
                  rw [List.filter_eq_nil_iff]
                  intro c hc
                  rw [hgen] at hc
                  have hcb := hC c hc
                  have hne : (c.out_node == node_id) = false := by
                    rw [hnb]
                    simpa using hcb
                  simp [hne]
                simp only [hwempty, hact]
                show (s.set m ((ActivationFunction.Identity).eval tr
                  (List.map _ []).sum)).getD m 0 = 0
                exact set_getD_self_zero s m
              · refine (setAt_getD_ne _ _ _ _ ?_).trans hs
                intro m2 hm2 hcon
                injection hm2 with hm2
                omega
  have h1 : ∀ k : ℕ, ((net.sorted_nodes.take k).foldl (ffwNode net tr)
      (ffwInit net inputs)).getD j 0 = 0 := by
    intro k
    refine foldl_preserve (fun s : List ℚ => s.getD j 0 = 0) (ffwNode net tr)
      _ _ hinit ?_
    intro s b _ hs
    exact hstep s b hs
  refine ⟨h1, ?_, ?_⟩
  · intro k c _ _
    rw [h1 k, zero_mul]
  · show (net.sorted_nodes.foldl (ffwNode net tr) (ffwInit net inputs)).getD j 0 = 0
    refine foldl_preserve (fun s : List ℚ => s.getD j 0 = 0) (ffwNode net tr)
      _ _ hinit ?_
    intro s b _ hs
    exact hstep s b hs

/-- C10 witness: genesis with one input and one output (node ids 0 =
input, 1 = bias, 2 = output; the bias is at position 1 of the node list),
evaluated on input `[5]`: the bias position of the final vector is 0. -/
theorem C10_ffw_bias_contributes_zero_witness :
    (ffwRun (FeedforwardNetwork.new (genesisG 1 1 cfgPars (rngPick 0)
      InnovationRecord.new)) trHalf [5]).getD 1 0 = 0 :=
  (C10_ffw_bias_contributes_zero 1 1 cfgPars (rngPick 0) InnovationRecord.new
    trHalf [5] 1 (by decide)).2.2

/-! ## Remaining mutation operators and the full `Genome::mutate`
(src/genome/genome.rs lines 130-333) -/

/-- `Genome::new()`: the empty genome (used as an out-of-range list
default in the embedding of indexed choices — never actually selected). -/
def Genome.new : Genome :=
  { nodes := [], connections := [], connection_set := [], input_nodes := []
    bias_node := 0, output_nodes := [], fitness := 0, adjusted_fitness := 0 }

/-- `Genome::add_connection_mutation`: enumerate candidate pairs (source
not an output, target not an input, pair absent, no self-loop), pick one
uniformly, take the registry id, skip if the genome already holds that id,
else insert an enabled connection with a fresh random weight. -/
def Genome.add_connection_mutation (g : Genome) (rng : Rng)
    (record : InnovationRecord) : Genome × Rng × InnovationRecord :=
  let possible := ((g.nodes.map (·.id)).map (fun from_node =>
      if g.output_nodes.contains from_node then []
      else (g.nodes.map (·.id)).filterMap (fun to_node =>
        if g.input_nodes.contains to_node then none
        else if (from_node, to_node) ∈ g.connection_set then none
        else if from_node = to_node then none
        else some (from_node, to_node)))).flatten
  if possible.isEmpty then (g, rng, record)
  else
    let n := rng.nextNat
    let p := possible.getD (n.1 % possible.length) (0, 0)
    let rec1 := record_connection_innovation record p.1 p.2
    if g.connections.any (fun c => c.innovation == rec1.1) then (g, n.2, rec1.2)
    else
      let w := n.2.nextFloat
      (({ g with
          connections := insertConnGene g.connections
            (ConnectionGene.mk w.1 true p.1 p.2 rec1.1)
          connection_set := setInsert g.connection_set (p.1, p.2) }), w.2, rec1.2)

/-- `Genome::mutate_node_parameters`: per node, optionally perturb or
reassign the bias (skipped for inputs and the bias node; clamped to
[-8, 8]) and the time constant (clamped to at least 0.1). -/
def Genome.mutate_node_parameters (g : Genome) (config : NeatConfig) (rng : Rng) :
    Genome × Rng :=
  let st := g.nodes.foldl (fun (st : List NodeGene × Rng) node =>
      let is_input := g.input_nodes.contains node.id || node.id == g.bias_node
      let pb : NodeGene × Rng :=
        if is_input = true then (node, st.2)
        else
          let f1 := st.2.nextFloat
          if f1.1 < config.bias_mutation_prob then
            let f2 := f1.2.nextFloat
            if f2.1 < config.param_perturb_prob then
              let d := f2.2.nextFloat
              ({ node with bias := max (-8) (min 8 (node.bias + d.1)) }, d.2)
            else
              let b := f2.2.nextFloat
              ({ node with bias := b.1 }, b.2)
          else (node, f1.2)
      let pt : NodeGene × Rng :=
        let f1 := pb.2.nextFloat
        if f1.1 < config.time_constant_mutation_prob then
          let f2 := f1.2.nextFloat
          if f2.1 < config.param_perturb_prob then
            let d := f2.2.nextFloat
            ({ pb.1 with time_constant := max (1/10) (pb.1.time_constant + d.1) }, d.2)
          else
            let t := f2.2.nextFloat
            ({ pb.1 with time_constant := t.1 }, t.2)
        else (pb.1, f1.2)
      (st.1 ++ [pt.1], pt.2))
    ([], rng)
  ({ g with nodes := st.1 }, st.2)

/-- `Genome::mutate`: weight mutation over all connections, then the
add-connection, add-node and toggle-enable mutations, then (for CTRNN
configs) the node-parameter mutation, each gated by its probability. -/
def Genome.mutate (g : Genome) (config : NeatConfig) (rng : Rng)
    (record : InnovationRecord) : Genome × Rng × InnovationRecord :=
  let f1 := rng.nextFloat
  let s1 : Genome × Rng :=
    if f1.1 < config.weight_mutation_prob then
      let wst := g.connections.foldl (fun (st : List ConnectionGene × Rng) c =>
          let p := st.2.nextFloat
          if p.1 < config.weight_perturb_prob then
            let d := p.2.nextFloat
            (st.1 ++ [{ c with weight := c.weight + d.1 }], d.2)
          else
            let w := p.2.nextFloat
            (st.1 ++ [{ c with weight := w.1 }], w.2)) ([], f1.2)
      ({ g with connections := wst.1 }, wst.2)
    else (g, f1.2)
  let f2 := s1.2.nextFloat
  let s2 : Genome × Rng × InnovationRecord :=
    if f2.1 < config.new_connection_prob then
      s1.1.add_connection_mutation f2.2 record
    else (s1.1, f2.2, record)
  let f3 := s2.2.1.nextFloat
  let s3 : Genome × Rng × InnovationRecord :=
    if f3.1 < config.new_node_prob then
      s2.1.add_node_mutation config f3.2 s2.2.2
    else (s2.1, f3.2, s2.2.2)
  let f4 := s3.2.1.nextFloat
  let s4 : Genome × Rng :=
    if f4.1 < config.toggle_enable_prob ∧ ¬s3.1.connections.isEmpty then
      let n := f4.2.nextNat
      let idx := n.1 % s3.1.connections.length
      let c := s3.1.connections.getD idx (ConnectionGene.mk 0 true 0 0 0)
      ({ s3.1 with
          connections := s3.1.connections.set idx { c with enabled := !c.enabled } },
        n.2)
    else (s3.1, f4.2)
  if config.network_type = NetworkType.CTRNN then
    let pst := s4.1.mutate_node_parameters config s4.2
    (pst.1, pst.2, s3.2.2)
  else (s4.1, s4.2, s3.2.2)

/-! ## Species (src/species.rs) -/

/-- `Species`: id, members, representative, staleness, rolling best
fitness and its exemplar, average fitness. -/
structure Species where
  id : ℕ
  genomes : List Genome
  representative : Genome
  staleness : ℕ
  best_fitness : ℚ
  best_fitness_genome : Option Genome
  average_fitness : ℚ
deriving DecidableEq, Repr

/-- `Species::new(id, representative)`. -/
def Species.new (id : ℕ) (representative : Genome) : Species :=
  { id := id, genomes := [], representative := representative, staleness := 0
    best_fitness := 0, best_fitness_genome := none, average_fitness := 0 }

/-- `Species::calculate_average_fitness`. -/
def Species.calculate_average_fitness (s : Species) : Species :=
  if s.genomes.isEmpty then { s with average_fitness := 0 }
  else { s with average_fitness :=
    (s.genomes.map (·.fitness)).sum / (s.genomes.length : ℚ) }

/-- `iter().max_by(...)`: the last element of maximal fitness. -/
def maxByFitness (l : List Genome) : Option Genome :=
  l.foldl (fun acc g => match acc with
    | none => some g
    | some m => if m.fitness ≤ g.fitness then some g else some m) none

/-- `Species::update_best_fitness`: if the best member improves on the
recorded best, record it, make it the representative, reset staleness;
otherwise increment staleness. -/
def Species.update_best_fitness (s : Species) : Species × Bool :=
  match maxByFitness s.genomes with
  | none => (s, false)
  | some best_genome =>
      if s.best_fitness < best_genome.fitness then
        ({ s with
            best_fitness := best_genome.fitness
            best_fitness_genome := some best_genome
            representative := best_genome
            staleness := 0 }, true)
      else ({ s with staleness := s.staleness + 1 }, false)

/-- `Species::select_representative`: a uniformly random member (the
representative itself is the unreachable empty-list default). -/
def Species.select_representative (s : Species) (rng : Rng) : Genome × Rng :=
  let p := rng.nextNat
  (s.genomes.getD (p.1 % s.genomes.length) s.representative, p.2)

/-! ## Population (src/population.rs) -/

/-- `Population`: species list, species-id counter, generation, config,
global best, innovation registry and the genesis template.  (The
environment descriptor is omitted: none of the embedded operations read
it.) -/
structure Population where
  species : List Species
  species_counter : ℕ
  generation : ℕ
  config : NeatConfig
  best_genome : Option Genome
  best_fitness : ℚ
  innovation : InnovationRecord
  initial_genome : Genome
deriving DecidableEq, Repr

/-- The per-species pass of reproduce step 1: refresh the average, update
best/staleness, fold the global best, mark stagnation, write the adjusted
fitness of every member and accumulate the population total.  State:
`(updated species, total adjusted fitness, stagnant ids, best genome,
best fitness)`. -/
def reproStatsStep (config : NeatConfig)
    (st : List Species × ℚ × List ℕ × Option Genome × ℚ) (s : Species) :
    List Species × ℚ × List ℕ × Option Genome × ℚ :=
  let s1 := s.calculate_average_fitness
  let amount := s1.genomes.length
  let s2 := (s1.update_best_fitness).1
  let gb : Option Genome × ℚ :=
    match s2.best_fitness_genome with
    | some best =>
        if st.2.2.2.2 < best.fitness then (some best, best.fitness)
        else (st.2.2.2.1, st.2.2.2.2)
    | none => (st.2.2.2.1, st.2.2.2.2)
  let stag := if config.stagnation_limit ≤ s2.staleness then st.2.2.1 ++ [s2.id]
    else st.2.2.1
  let s3 := { s2 with genomes := (s2.genomes.map
    (fun g => { g with adjusted_fitness := g.fitness / (amount : ℚ) })) }
  let tot := st.2.1 + (s2.genomes.map (fun g => g.fitness / (amount : ℚ))).sum
  (st.1 ++ [s3], tot, stag, gb.1, gb.2)

/-- Reproduce step "remove stagnant species, but keep at least one":
the removal runs whenever more than one species exists. -/
def removeStagnant (species : List Species) (stagnant : List ℕ) : List Species :=
  if 1 < species.length then species.filter (fun s => !(stagnant.contains s.id))
  else species

/-- `(x).round() as usize` on an `f32` value. -/
def usizeRound (q : ℚ) : ℕ := (round q).toNat

/-- `(x).ceil() as usize` on an `f32` value. -/
def qCeilUsize (q : ℚ) : ℕ := (Int.ceil q).toNat

/-- Reproduce step 2: the per-species offspring quota. -/
def offspringCounts (species : List Species) (total : ℚ) (config : NeatConfig) :
    List ℕ :=
  species.map (fun s =>
    if 0 < total then
      usizeRound ((s.genomes.map (·.adjusted_fitness)).sum / total
        * (config.population_size : ℚ))
    else config.population_size / species.length)

/-- Reproduce step 3 for one species: copy its top `elitism` members into
the next generation, stopping at the population cap. -/
def elitismStep (config : NeatConfig) (acc : List Genome) (s : Species) :
    List Genome :=
  if config.elitism ≤ s.genomes.length then
    let sorted := List.insertionSort (fun a b => a.fitness ≤ b.fitness) s.genomes
    (List.range (min config.elitism sorted.length)).foldl (fun acc2 i =>
      if acc2.length < config.population_size then
        acc2 ++ [sorted.getD (sorted.length - 1 - i) Genome.new]
      else acc2) acc
  else acc

/-- Reproduce step 3: elitism over all species (skipped when `elitism = 0`). -/
def elitismPhase (species : List Species) (config : NeatConfig) : List Genome :=
  if 0 < config.elitism then species.foldl (elitismStep config) [] else []

/-- One offspring of reproduce step 4: crossover of two random pool
members (when the coin allows and the pool has two) or a clone, then a
mutation; nothing happens once the population is full or when the pool is
empty. -/
def offspringChildStep (config : NeatConfig) (pool : List Genome)
    (st : List Genome × Rng × InnovationRecord) (_ : ℕ) :
    List Genome × Rng × InnovationRecord :=
  if config.population_size ≤ st.1.length then st
  else if pool.isEmpty then st
  else
    let f := st.2.1.nextFloat
    if f.1 < config.crossover_rate ∧ 2 ≤ pool.length then
      let n1 := f.2.nextNat
      let parent1 := pool.getD (n1.1 % pool.length) Genome.new
      let n2 := n1.2.nextNat
      let parent2 := pool.getD (n2.1 % pool.length) Genome.new
      let cr := crossoverRng parent1 parent2 n2.2
      let m := cr.1.mutate config cr.2 st.2.2
      (st.1 ++ [m.1], m.2.1, m.2.2)
    else
      let n1 := f.2.nextNat
      let parent := pool.getD (n1.1 % pool.length) Genome.new
      let m := (parent.from_existing).mutate config n1.2 st.2.2
      (st.1 ++ [m.1], m.2.1, m.2.2)

/-- Reproduce step 4 for one species: cull to the top
`ceil(len * survival_threshold)` members, then produce the species'
offspring quota. -/
def offspringSpeciesStep (config : NeatConfig)
    (st : List Genome × Rng × InnovationRecord) (sp : Species × ℕ) :
    List Genome × Rng × InnovationRecord :=
  if sp.2 = 0 ∨ sp.1.genomes.isEmpty then st
  else
    let sorted := List.insertionSort (fun a b => a.fitness ≤ b.fitness) sp.1.genomes
    let cutoff := qCeilUsize ((sp.1.genomes.length : ℚ) * config.survival_threshold)
    let pool := if 0 < cutoff ∧ cutoff < sorted.length then
        sorted.drop (sorted.length - cutoff)
      else sorted
    (List.range sp.2).foldl (offspringChildStep config pool) st

/-- Reproduce step 4 over all species with their quotas. -/
def offspringPhase (species : List Species) (counts : List ℕ) (config : NeatConfig)
    (st0 : List Genome × Rng × InnovationRecord) :
    List Genome × Rng × InnovationRecord :=
  (species.zip counts).foldl (offspringSpeciesStep config) st0

/-- One top-up child: a mutated clone of the template. -/
def topUpStep (config : NeatConfig) (template : Genome)
    (st : List Genome × Rng × InnovationRecord) (_ : ℕ) :
    List Genome × Rng × InnovationRecord :=
  let m := (template.from_existing).mutate config st.2.1 st.2.2
  (st.1 ++ [m.1], m.2.1, m.2.2)

/-- The final while-loop of reproduce: top the generation up to
`population_size` with mutated clones of the global best (or of the
genesis template when no best exists). -/
def topUp (config : NeatConfig) (template : Genome)
    (st : List Genome × Rng × InnovationRecord) :
    List Genome × Rng × InnovationRecord :=
  (List.range (config.population_size - st.1.length)).foldl
    (topUpStep config template) st

/-- Reproduce step 1 over all species. -/
def reproStats (pop : Population) : List Species × ℚ × List ℕ × Option Genome × ℚ :=
  pop.species.foldl (reproStatsStep pop.config)
    ([], 0, [], pop.best_genome, pop.best_fitness)

/-- The surviving species after the stagnant-removal step. -/
def reproSpecies2 (pop : Population) : List Species :=
  removeStagnant (reproStats pop).1 (reproStats pop).2.2.1

/-- The template of the top-up loop: the global best, else the genesis
template. -/
def reproTemplate (pop : Population) : Genome :=
  match (reproStats pop).2.2.2.1 with
  | some b => b
  | none => pop.initial_genome

/-- The full next generation of `Population::reproduce`: elitism, then the
per-species offspring, then the top-up to `population_size`. -/
def reproGenList (pop : Population) (rng : Rng) :
    List Genome × Rng × InnovationRecord :=
  topUp pop.config (reproTemplate pop)
    (offspringPhase (reproSpecies2 pop)
      (offspringCounts (reproSpecies2 pop) (reproStats pop).2.1 pop.config)
      pop.config
      (elitismPhase (reproSpecies2 pop) pop.config, rng, pop.innovation))

/-- `Population::reproduce` (src/population.rs lines 196-340). -/
def Population.reproduce (pop : Population) (rng : Rng) :
    List Genome × Population × Rng :=
  ((reproGenList pop rng).1,
    { pop with
        species := reproSpecies2 pop
        best_genome := (reproStats pop).2.2.2.1
        best_fitness := (reproStats pop).2.2.2.2
        innovation := (reproGenList pop rng).2.2 },
    (reproGenList pop rng).2.1)

/-- Place a genome into the first species whose representative is within
the compatibility threshold; the flag reports whether a species took it. -/
def placeGenome : List Species → Genome → NeatConfig → List Species × Bool
  | [], _, _ => ([], false)
  | s :: rest, genome, config =>
      if s.representative.compatibility_distance genome config
          < config.compatibility_threshold then
        ({ s with genomes := s.genomes ++ [genome] } :: rest, true)
      else
        let r := placeGenome rest genome config
        (s :: r.1, r.2)

/-- The per-genome pass of speciate: place into an existing species or
open a new one under the next species id. -/
def speciateAssignStep (config : NeatConfig) (st : List Species × ℕ)
    (genome : Genome) : List Species × ℕ :=
  let pl := placeGenome st.1 genome config
  if pl.2 then (pl.1, st.2)
  else (pl.1 ++ [{ Species.new st.2 genome with genomes := [genome] }], st.2 + 1)

/-- The representative-refresh pass of speciate (runs after the member
lists were cleared): reselect for non-empty species, collect the ids of
empty ones. -/
def speciateRepStep (st : List Species × List ℕ × Rng) (s : Species) :
    List Species × List ℕ × Rng :=
  if s.genomes.isEmpty then (st.1 ++ [s], st.2.1 ++ [s.id], st.2.2)
  else
    let r := s.select_representative st.2.2
    (st.1 ++ [{ s with representative := r.1 }], st.2.1, r.2)

/-- The species list with every member list cleared. -/
def speciateCleared (pop : Population) : List Species :=
  pop.species.map (fun s => { s with genomes := ([] : List Genome) })

/-- The representative-refresh pass over the cleared lists. -/
def speciateStep2 (pop : Population) (rng : Rng) :
    List Species × List ℕ × Rng :=
  (speciateCleared pop).foldl speciateRepStep ([], [], rng)

/-- The species kept after dropping those collected as empty. -/
def speciateRetained (pop : Population) (rng : Rng) : List Species :=
  (speciateStep2 pop rng).1.filter
    (fun s => !((speciateStep2 pop rng).2.1.contains s.id))

/-- The species list (and the species counter) after assigning every
member of the new generation. -/
def speciateAssigned (pop : Population) (new_generation : List Genome)
    (rng : Rng) : List Species × ℕ :=
  new_generation.foldl (speciateAssignStep pop.config)
    (speciateRetained pop rng, pop.species_counter)

/-- The species list after the final removal of empty species. -/
def speciateFinal (pop : Population) (new_generation : List Genome)
    (rng : Rng) : List Species :=
  (speciateAssigned pop new_generation rng).1.filter
    (fun s => !s.genomes.isEmpty)

/-- `Population::speciate` (src/population.rs lines 134-194): clear every
member list, refresh representatives / collect empty ids (on the cleared
lists), drop the collected species, assign every offspring, drop species
that ended up empty, and nudge the threshold. -/
def Population.speciate (pop : Population) (new_generation : List Genome)
    (rng : Rng) : Population × Rng :=
  let final := speciateFinal pop new_generation rng
  let cfg :=
    if pop.config.target_species_count * 2 < final.length then
      { pop.config with compatibility_threshold :=
          pop.config.compatibility_threshold * (105 / 100) }
    else if final.length < pop.config.target_species_count / 2
        ∧ 1 < final.length then
      { pop.config with compatibility_threshold :=
          pop.config.compatibility_threshold * (95 / 100) }
    else pop.config
  ({ pop with
      species := final
      species_counter := (speciateAssigned pop new_generation rng).2
      config := cfg },
    (speciateStep2 pop rng).2.2)

/-- `Population::evolve`: bump the generation, reproduce, respeciate. -/
def Population.evolve (pop : Population) (rng : Rng) : Population × Rng :=
  let pop1 := { pop with generation := pop.generation + 1 }
  let r := pop1.reproduce rng
  Population.speciate r.2.1 r.1 r.2.2

/-! ## The population-size invariant of reproduce -/

/-- One elitism copy keeps the generation at or below the cap. -/
lemma elitismStep_le (config : NeatConfig) (acc : List Genome) (s : Species)
    (h : acc.length ≤ config.population_size) :
    (elitismStep config acc s).length ≤ config.population_size := by
  unfold elitismStep
  split
  · exact foldl_preserve
      (fun l : List Genome => l.length ≤ config.population_size)
      _ _ acc h
      (fun a b _ ha => by
        dsimp only
        split
        · next hlt =>
            simp only [List.length_append, List.length_singleton]
            omega
        · exact ha)
  · exact h

/-- The elitism phase never exceeds the population cap. -/
lemma elitismPhase_le (species : List Species) (config : NeatConfig) :
    (elitismPhase species config).length ≤ config.population_size := by
  unfold elitismPhase
  split
  · exact foldl_preserve
      (fun l : List Genome => l.length ≤ config.population_size)
      (elitismStep config) species [] (Nat.zero_le _)
      (fun a b _ ha => elitismStep_le config a b ha)
  · exact Nat.zero_le _

/-- One offspring keeps the generation at or below the cap: the push is
guarded by `len < population_size`. -/
lemma offspringChildStep_le (config : NeatConfig) (pool : List Genome)
    (st : List Genome × Rng × InnovationRecord) (k : ℕ)
    (h : st.1.length ≤ config.population_size) :
    (offspringChildStep config pool st k).1.length
      ≤ config.population_size := by
  unfold offspringChildStep
  split
  · exact h
  · next hcap =>
      split
      · exact h
      · dsimp only
        split
        · next =>
            simp only [List.length_append, List.length_singleton]
            omega
        · next =>
            simp only [List.length_append, List.length_singleton]
            omega

/-- One species' offspring loop keeps the generation at or below the cap. -/
lemma offspringSpeciesStep_le (config : NeatConfig)
    (st : List Genome × Rng × InnovationRecord) (sp : Species × ℕ)
    (h : st.1.length ≤ config.population_size) :
    (offspringSpeciesStep config st sp).1.length
      ≤ config.population_size := by
  unfold offspringSpeciesStep
  split
  · exact h
  · exact foldl_preserve
      (fun s : List Genome × Rng × InnovationRecord =>
        s.1.length ≤ config.population_size)
      _ _ st h
      (fun a b _ ha => offspringChildStep_le config _ a b ha)

/-- The offspring phase keeps the generation at or below the cap. -/
lemma offspringPhase_le (species : List Species) (counts : List ℕ)
    (config : NeatConfig) (st0 : List Genome × Rng × InnovationRecord)
    (h : st0.1.length ≤ config.population_size) :
    (offspringPhase species counts config st0).1.length
      ≤ config.population_size := by
  unfold offspringPhase
  exact foldl_preserve
    (fun s : List Genome × Rng × InnovationRecord =>
      s.1.length ≤ config.population_size)
    (offspringSpeciesStep config) (species.zip counts) st0 h
    (fun a b _ ha => offspringSpeciesStep_le config a b ha)

/-- Every top-up iteration appends exactly one genome. -/
lemma topUp_foldl_len (config : NeatConfig) (template : Genome)
    (l : List ℕ) (st : List Genome × Rng × InnovationRecord) :
    ((l.foldl (topUpStep config template) st).1).length
      = st.1.length + l.length := by
  induction l generalizing st with
  | nil => rfl
  | cons b t ih =>
      rw [List.foldl_cons, ih]
      show (st.1
          ++ [((template.from_existing).mutate config st.2.1 st.2.2).1]).length
          + t.length = st.1.length + (b :: t).length
      simp only [List.length_append, List.length_cons, List.length_nil]
      omega

/-- The top-up loop fills the generation exactly to the cap. -/
lemma topUp_len (config : NeatConfig) (template : Genome)
    (st : List Genome × Rng × InnovationRecord)
    (h : st.1.length ≤ config.population_size) :
    ((topUp config template st).1).length = config.population_size := by
  unfold topUp
  rw [topUp_foldl_len, List.length_range]
  omega

/-- `Population::reproduce` yields exactly `population_size` genomes. -/
lemma reproduce_length (pop : Population) (rng : Rng) :
    ((Population.reproduce pop rng).1).length = pop.config.population_size := by
  show ((reproGenList pop rng).1).length = pop.config.population_size
  unfold reproGenList
  exact topUp_len _ _ _ (offspringPhase_le _ _ _ _ (elitismPhase_le _ _))

/-! ## Membership accounting of speciate -/

/-- On the cleared lists, the representative pass collects every id it
keeps: every species it emits went through the empty branch. -/
lemma speciateStep2_all_collected (pop : Population) (rng : Rng) :
    ∀ s ∈ (speciateStep2 pop rng).1, s.id ∈ (speciateStep2 pop rng).2.1 := by
  unfold speciateStep2
  refine foldl_preserve
    (fun st : List Species × List ℕ × Rng => ∀ s ∈ st.1, s.id ∈ st.2.1)
    speciateRepStep (speciateCleared pop) ([], [], rng)
    (fun s hs => absurd hs (List.not_mem_nil s)) ?_
  intro a b hb ha
  have hbe : b.genomes = [] := by
    rcases List.mem_map.mp hb with ⟨x, _, hx⟩
    rw [← hx]
  have hstep : speciateRepStep a b = (a.1 ++ [b], a.2.1 ++ [b.id], a.2.2) := by
    unfold speciateRepStep
    rw [hbe]
    rfl
  intro s hs
  rw [hstep] at hs ⊢
  rcases List.mem_append.mp hs with h1 | h1
  · exact List.mem_append_left _ (ha s h1)
  · have hsb : s = b := by simpa using h1
    subst hsb
    exact List.mem_append_right _ (by simp)

/-- All pre-existing species are dropped before the assignment pass: the
retained list is always empty (the member lists were just cleared, so
every id was collected). -/
lemma speciateRetained_nil (pop : Population) (rng : Rng) :
    speciateRetained pop rng = [] := by
  unfold speciateRetained
  rw [List.filter_eq_nil_iff]
  intro s hs
  have hmem := speciateStep2_all_collected pop rng s hs
  simp [hmem]

/-- `placeGenome` on a hit: the first compatible species takes the genome. -/
lemma placeGenome_cons_pos (a : Species) (rest : List Species) (g : Genome)
    (config : NeatConfig)
    (hc : a.representative.compatibility_distance g config
      < config.compatibility_threshold) :
    placeGenome (a :: rest) g config
      = ({ a with genomes := a.genomes ++ [g] } :: rest, true) := by
  unfold placeGenome
  rw [if_pos hc]

/-- `placeGenome` on a miss: recurse on the tail. -/
lemma placeGenome_cons_neg (a : Species) (rest : List Species) (g : Genome)
    (config : NeatConfig)
    (hc : ¬ a.representative.compatibility_distance g config
      < config.compatibility_threshold) :
    placeGenome (a :: rest) g config
      = (a :: (placeGenome rest g config).1, (placeGenome rest g config).2) := by
  have he : placeGenome (a :: rest) g config
      = (if a.representative.compatibility_distance g config
            < config.compatibility_threshold then
          ({ a with genomes := a.genomes ++ [g] } :: rest, true)
        else
          (a :: (placeGenome rest g config).1,
            (placeGenome rest g config).2)) := rfl
  rw [he, if_neg hc]

/-- A placement adds exactly one member when it reports success and none
otherwise. -/
lemma placeGenome_sum (l : List Species) (g : Genome) (config : NeatConfig) :
    (((placeGenome l g config).1).map (fun s => s.genomes.length)).sum
      = (l.map (fun s => s.genomes.length)).sum
        + (if (placeGenome l g config).2 = true then 1 else 0) := by
  induction l with
  | nil => rfl
  | cons a rest ih =>
      by_cases hc : a.representative.compatibility_distance g config
          < config.compatibility_threshold
      · rw [placeGenome_cons_pos a rest g config hc]
        simp only [List.map_cons, List.sum_cons, List.length_append,
          List.length_cons, List.length_nil, eq_self_iff_true, if_true]
        omega
      · rw [placeGenome_cons_neg a rest g config hc]
        simp only [List.map_cons, List.sum_cons, ih]
        omega

/-- Every assignment step grows the total member count by exactly one. -/
lemma speciateAssignStep_sum (config : NeatConfig) (st : List Species × ℕ)
    (g : Genome) :
    (((speciateAssignStep config st g).1).map (fun s => s.genomes.length)).sum
      = (st.1.map (fun s => s.genomes.length)).sum + 1 := by
  simp only [speciateAssignStep]
  have hps := placeGenome_sum st.1 g config
  by_cases hp : (placeGenome st.1 g config).2 = true
  · rw [if_pos hp]
    rw [if_pos hp] at hps
    exact hps
  · rw [if_neg hp]
    rw [if_neg hp] at hps
    simp only [List.map_append, List.sum_append, List.map_cons, List.sum_cons,
      List.map_nil, List.sum_nil, List.length_cons, List.length_nil, hps]
    omega

/-- The assignment pass grows the total member count by the generation
size. -/
lemma speciateAssigned_sum_aux (config : NeatConfig) (gen : List Genome) :
    ∀ st : List Species × ℕ,
    (((gen.foldl (speciateAssignStep config) st).1).map
        (fun s => s.genomes.length)).sum
      = (st.1.map (fun s => s.genomes.length)).sum + gen.length := by
  induction gen with
  | nil => intro st; rfl
  | cons g t ih =>
      intro st
      rw [List.foldl_cons, ih, speciateAssignStep_sum]
      simp only [List.length_cons]
      omega

/-- Dropping empty species does not change the total member count. -/
lemma filter_nonempty_sum (l : List Species) :
    (((l.filter (fun s => !s.genomes.isEmpty)).map
        (fun s => s.genomes.length)).sum)
      = (l.map (fun s => s.genomes.length)).sum := by
  induction l with
  | nil => rfl
  | cons s t ih =>
      rw [List.filter_cons]
      by_cases h : s.genomes.isEmpty = true
      · have hlen : s.genomes.length = 0 := by
          cases hg : s.genomes with
          | nil => rfl
          | cons x xs => rw [hg] at h; simp [List.isEmpty] at h
        simp [h, hlen, ih]
      · simp [h, ih]

/-- C7: at the end of every `evolve` call the total number of genomes
across all species equals `population_size` exactly: `reproduce` produces
exactly `population_size` offspring (the elitism and offspring pushes are
capped and the top-up loop fills the remainder), and `speciate` places
each offspring into exactly one species (all pre-existing species arrive
cleared and are dropped, and the final filter removes only empty
species). -/
theorem C7_evolve_population_size (pop : Population) (rng : Rng) :
    ((((Population.evolve pop rng).1).species).map
      (fun s => s.genomes.length)).sum = pop.config.population_size := by
  have e1 : ((Population.evolve pop rng).1).species
      = speciateFinal
          ((Population.reproduce
            { pop with generation := pop.generation + 1 } rng).2.1)
          ((Population.reproduce
            { pop with generation := pop.generation + 1 } rng).1)
          ((Population.reproduce
            { pop with generation := pop.generation + 1 } rng).2.2) := rfl
  rw [e1]
  unfold speciateFinal
  rw [filter_nonempty_sum]
  unfold speciateAssigned
  rw [speciateAssigned_sum_aux, speciateRetained_nil]
  simp only [List.map_nil, List.sum_nil, Nat.zero_add]
  exact reproduce_length _ rng

/-! ## Which species survive speciate -/

/-- Placement never changes any species id. -/
lemma placeGenome_id_bound (g : Genome) (config : NeatConfig) (c : ℕ) :
    ∀ l : List Species, (∀ s ∈ l, c ≤ s.id) →
      ∀ s ∈ (placeGenome l g config).1, c ≤ s.id := by
  intro l
  induction l with
  | nil => intro _ s hs; exact absurd hs (List.not_mem_nil s)
  | cons a rest ih =>
      intro h s hs
      by_cases hc : a.representative.compatibility_distance g config
          < config.compatibility_threshold
      · rw [placeGenome_cons_pos a rest g config hc] at hs
        rcases List.mem_cons.mp hs with h1 | h1
        · subst h1
          exact h a (List.mem_cons_self a rest)
        · exact h s (List.mem_cons_of_mem a h1)
      · rw [placeGenome_cons_neg a rest g config hc] at hs
        rcases List.mem_cons.mp hs with h1 | h1
        · rw [h1]
          exact h a (List.mem_cons_self a rest)
        · exact ih (fun t ht => h t (List.mem_cons_of_mem a ht)) s h1

/-- One assignment step keeps every id at or above the starting counter
(new species take the current counter, which only grows). -/
lemma speciateAssignStep_id_bound (config : NeatConfig) (c : ℕ)
    (st : List Species × ℕ) (g : Genome)
    (h : (∀ s ∈ st.1, c ≤ s.id) ∧ c ≤ st.2) :
    (∀ s ∈ (speciateAssignStep config st g).1, c ≤ s.id)
      ∧ c ≤ (speciateAssignStep config st g).2 := by
  simp only [speciateAssignStep]
  by_cases hp : (placeGenome st.1 g config).2 = true
  · rw [if_pos hp]
    exact ⟨placeGenome_id_bound g config c st.1 h.1, h.2⟩
  · rw [if_neg hp]
    refine ⟨?_, ?_⟩
    · intro s hs
      rcases List.mem_append.mp hs with h1 | h1
      · exact placeGenome_id_bound g config c st.1 h.1 s h1
      · have hsx : s = { Species.new st.2 g with genomes := [g] } := by
          simpa using h1
        subst hsx
        exact h.2
    · have := h.2
      omega

/-- After the assignment pass, every species id is at least the incoming
species counter (the retained list is empty, so every species in the
result was created by the pass). -/
lemma speciateAssigned_id_bound (pop : Population) (gen : List Genome)
    (rng : Rng) :
    ∀ s ∈ (speciateAssigned pop gen rng).1, pop.species_counter ≤ s.id := by
  unfold speciateAssigned
  have hinv := foldl_preserve
    (fun st : List Species × ℕ =>
      (∀ s ∈ st.1, pop.species_counter ≤ s.id)
        ∧ pop.species_counter ≤ st.2)
    (speciateAssignStep pop.config) gen
    (speciateRetained pop rng, pop.species_counter)
    (by
      refine ⟨?_, le_refl _⟩
      rw [speciateRetained_nil]
      intro s hs
      exact absurd hs (List.not_mem_nil s))
    (fun a b _ ha => speciateAssignStep_id_bound pop.config _ a b ha)
  exact hinv.1

/-- The concrete population for exercising `speciate`: one pre-existing
species (id 0) that currently holds one member. -/
def popC1 : Population :=
  { species := [{ Species.new 0 Genome.new with genomes := [Genome.new] }]
    species_counter := 1
    generation := 0
    config := cfgPars
    best_genome := none
    best_fitness := 0
    innovation := InnovationRecord.new
    initial_genome := Genome.new }

/-- C1: the claim fails on the code.  `speciate` clears every member list
BEFORE checking which lists are empty, so every pre-existing species —
also one whose member list was non-empty before the clearing — is
collected as empty and dropped, and every genome of the new generation
lands in a freshly created species.  Formally: every species surviving
any `speciate` call has an id at or above the incoming species counter
(so no pre-existing species, whose ids are below the counter, ever
survives); concretely, `popC1`'s sole species (id 0) arrives with one
member, yet the result consists of the single new species with id 1. -/
theorem C1_speciate_drops_preexisting_species :
    (∀ (pop : Population) (gen : List Genome) (rng : Rng),
      ∀ s ∈ ((Population.speciate pop gen rng).1).species,
        pop.species_counter ≤ s.id) ∧
    (popC1.species.map (fun s => s.genomes.length) = [1]
      ∧ popC1.species.map (fun s => s.id) = [0]
      ∧ ((Population.speciate popC1 [Genome.new] (rngPick 0)).1).species.map
          (fun s => s.id) = [1]) := by
  constructor
  · intro pop gen rng s hs
    have e : ((Population.speciate pop gen rng).1).species
        = speciateFinal pop gen rng := rfl
    rw [e] at hs
    unfold speciateFinal at hs
    exact speciateAssigned_id_bound pop gen rng s (List.mem_of_mem_filter hs)
  · refine ⟨by decide, by decide, by decide⟩

/-- A configuration whose stagnation limit marks every species at once. -/
def cfgC3 : NeatConfig :=
  { cfgPars with stagnation_limit := 0, population_size := 0, elitism := 0 }

/-- Two species, each with one member of fitness equal to the recorded
best (both therefore go stale on the next update). -/
def popC3 : Population :=
  { species := [{ Species.new 0 Genome.new with genomes := [Genome.new] },
                { Species.new 1 Genome.new with genomes := [Genome.new] }]
    species_counter := 2
    generation := 0
    config := cfgC3
    best_genome := none
    best_fitness := 0
    innovation := InnovationRecord.new
    initial_genome := Genome.new }

/-- C3: the claim fails on the code.  The removal guard `species.len() > 1`
is checked once BEFORE the retain, not during it, so when every species is
stagnant and at least two exist, the retain removes them all: `popC3` has
two species, both of which stagnate in the same generation (fitness 0
does not exceed the recorded best 0, staleness reaches the limit 0), and
the species list after the stagnant-removal step of `reproduce` is
empty. -/
theorem C3_stagnant_removal_empties_species_list :
    popC3.species.length = 2
      ∧ (∀ s ∈ popC3.species, ¬ s.genomes.isEmpty = true)
      ∧ ((Population.reproduce popC3 (rngPick 0)).2.1).species = [] := by
  refine ⟨rfl, by decide, ?_⟩
  show reproSpecies2 popC3 = []
  decide

end Neat
